import Mathlib

/-! Machine deletion prioritisation.

A shallow embedding of `internal/controllers/machineset/machineset_delete_policy.go`:
the health classifier `isMachineHealthy`, the three priority functions, the policy
resolver `getDeletePriorityFunc` and the ranked selector
`getMachinesToDeletePrioritized`.

Conventions of the embedding.

* `deletePriority` is a `float64` in the source.  The priority functions are written over
  an arbitrary linearly ordered field `α`, with `math.Exp` passed in as `exp`; the
  selector only needs a linear order.  Rounding, infinities and NaN are not modelled.
  Where rounding changes the outcome the exact score says nothing about the program: in
  float64 `1.0 - math.Exp(-x)` is exactly 1 for `x ≥ 37.5`, so from an age of 375 days
  `oldestDeletePriority` returns exactly 50 and `newestDeletePriority` exactly 0.  The
  theorems that settle a claim are kept to statements that hold for the rounded scores as
  well; a lemma that holds for the exact score only says so.
* `metav1.Now()` is the argument `now` of the priority functions.  The source reads the
  clock on every call, so within one sort the scores of a member are taken at different
  instants; the theorems on the policies fix one instant for a whole selection.
* A slice of machines is a `List Machine`.  The selector sorts the caller's slice in
  place, so its embedding returns the contents of that slice after the call next to the
  returned sequence.
* `sort.Sort` belongs to the Go standard library.  The selector takes it as the argument
  `sortSort`, constrained by `SortContract`; `insertionSort`, the algorithm `sort.Sort`
  runs on short slices, is a concrete instance.
-/

namespace machineset

/-! ## Time -/

/-- A `time.Time` instant: nanoseconds elapsed since the zero instant
(January 1, year 1, 00:00:00 UTC). -/
structure Time where
  ns : Int
  deriving DecidableEq, Repr

/-- The smallest `time.Duration`, `-1 << 63`.  A `time.Duration` is a signed count of
nanoseconds held in an int64; it is embedded as the `Int` of that count. -/
def minDuration : Int := -9223372036854775808

/-- The largest `time.Duration`, `1<<63 - 1`. -/
def maxDuration : Int := 9223372036854775807

/-- The method `time.Time.IsZero`: the instant is the zero instant. -/
def Time.IsZero (t : Time) : Bool := t.ns == 0

/-- The method `time.Time.Sub`: the duration `t - u`, saturated to the range of
`time.Duration`. -/
def Time.Sub (t u : Time) : Int :=
  let d := t.ns - u.ns
  if d < minDuration then minDuration
  else if maxDuration < d then maxDuration
  else d

/-- The method `time.Duration.Seconds`: the duration as a number of seconds, in exact
arithmetic. -/
def Duration.Seconds {α : Type} [DivisionRing α] (d : Int) : α :=
  (d : α) / 1000000000

/-- The method `IsZero` of `*metav1.Time`: a nil pointer or the zero instant. -/
def IsZero (t : Option Time) : Bool :=
  match t with
  | none => true
  | some t => t.IsZero

/-! ## Members -/

/-- The status of a condition, `corev1.ConditionStatus`. -/
inductive ConditionStatus where
  | ConditionTrue
  | ConditionFalse
  | ConditionUnknown
  deriving DecidableEq, Repr

/-- Modelled from the spec: a health condition of a member, "a named, externally reported
status signal attached to a member" (the type `clusterv1.Condition` is declared outside the
sources at hand). -/
structure Condition where
  Type_ : String
  Status : ConditionStatus
  deriving DecidableEq, Repr

/-- Modelled from the spec: the reported failure of a member, "reason or message"
(the type behind `Status.Deprecated.V1Beta1` is declared outside the sources at hand). -/
structure MachineV1Beta1DeprecatedStatus where
  FailureReason : Option String
  FailureMessage : Option String
  deriving DecidableEq, Repr

/-- Modelled from the spec: the holder of the deprecated status, `Status.Deprecated`. -/
structure MachineDeprecatedStatus where
  V1Beta1 : Option MachineV1Beta1DeprecatedStatus
  deriving DecidableEq, Repr

/-- Modelled from the spec: the health signals of a member.  `NodeRef` is the node binding,
`V1Beta1Conditions` the conditions that `v1beta1conditions.Get` searches. -/
structure MachineStatus where
  NodeRef : Option String
  Deprecated : Option MachineDeprecatedStatus
  V1Beta1Conditions : List Condition
  deriving DecidableEq, Repr

/-- Modelled from the spec: the metadata of a member that the engine reads: its name, its
creation time (zero when unset), its deletion request and its annotations. -/
structure ObjectMeta where
  Name : String
  CreationTimestamp : Time
  DeletionTimestamp : Option Time
  Annotations : List (String × String)
  deriving DecidableEq, Repr

/-- Modelled from the spec: a fleet member, `clusterv1.Machine`. -/
structure Machine where
  ObjectMeta : ObjectMeta
  Status : MachineStatus
  deriving DecidableEq, Repr

/-- The promoted field `machine.Name`. -/
def Machine.Name (machine : Machine) : String := machine.ObjectMeta.Name

/-- The promoted field `machine.DeletionTimestamp`. -/
def Machine.DeletionTimestamp (machine : Machine) : Option Time :=
  machine.ObjectMeta.DeletionTimestamp

/-- Modelled from the spec: the key of the forced-deletion marker,
`clusterv1.DeleteMachineAnnotation`. -/
def DeleteMachineAnnotation : String := "cluster.x-k8s.io/delete-machine"

/-- Modelled from the spec: the type of the node-healthy condition,
`clusterv1.MachineNodeHealthyV1Beta1Condition`. -/
def MachineNodeHealthyV1Beta1Condition : String := "NodeHealthy"

/-- Modelled from the spec: the type of the health-check-succeeded condition,
`clusterv1.MachineHealthCheckSucceededV1Beta1Condition`. -/
def MachineHealthCheckSucceededV1Beta1Condition : String := "HealthCheckSucceeded"

/-- Modelled from the spec: `v1beta1conditions.Get`, the condition-by-type lookup
"getCondition(type) -> status|absent": the first condition of the member with the given
type, if there is one. -/
def Get (from_ : Machine) (t : String) : Option Condition :=
  from_.Status.V1Beta1Conditions.find? (fun condition => condition.Type_ == t)

/-- The function `isMachineHealthy`. -/
def isMachineHealthy (machine : Machine) : Bool :=
  if machine.Status.NodeRef == none then false
  else if (match machine.Status.Deprecated with
      | none => false
      | some deprecated =>
        match deprecated.V1Beta1 with
        | none => false
        | some v1beta1 => v1beta1.FailureReason != none || v1beta1.FailureMessage != none)
    then false
  else
    let nodeHealthyCondition := Get machine MachineNodeHealthyV1Beta1Condition
    if (match nodeHealthyCondition with
        | none => false
        | some c => c.Status == ConditionStatus.ConditionFalse) then false
    else
      let healthCheckCondition := Get machine MachineHealthCheckSucceededV1Beta1Condition
      if (match healthCheckCondition with
          | none => false
          | some c => c.Status == ConditionStatus.ConditionFalse) then false
      else true

/-! ## Priority functions -/

section Priority

variable {α : Type} [LinearOrderedField α]

/-- The constant `mustDelete`. -/
def mustDelete : α := 100

/-- The constant `shouldDelete`. -/
def shouldDelete : α := 75

/-- The constant `betterDelete`. -/
def betterDelete : α := 50

/-- The constant `couldDelete`. -/
def couldDelete : α := 20

/-- The constant `mustNotDelete`. -/
def mustNotDelete : α := 0

/-- The constant `secondsPerTenDays`. -/
def secondsPerTenDays : α := 864000

/-- The function `oldestDeletePriority`; `exp` is `math.Exp`, `now` is `metav1.Now()`.
The arithmetic is the exact one of `α`, where the source rounds to float64 after each
operation. -/
def oldestDeletePriority (exp : α → α) (now : Time) (machine : Machine) : α :=
  if !IsZero machine.DeletionTimestamp then mustDelete
  else if (machine.ObjectMeta.Annotations.lookup DeleteMachineAnnotation).isSome then
    shouldDelete
  else if !isMachineHealthy machine then betterDelete
  else if machine.ObjectMeta.CreationTimestamp.IsZero then mustNotDelete
  else
    let d := now.Sub machine.ObjectMeta.CreationTimestamp
    if (Duration.Seconds d : α) < 0 then mustNotDelete
    else betterDelete * (1 - exp (-(Duration.Seconds d) / secondsPerTenDays))

/-- The function `newestDeletePriority`. -/
def newestDeletePriority (exp : α → α) (now : Time) (machine : Machine) : α :=
  if !IsZero machine.DeletionTimestamp then mustDelete
  else if (machine.ObjectMeta.Annotations.lookup DeleteMachineAnnotation).isSome then
    shouldDelete
  else if !isMachineHealthy machine then betterDelete
  else betterDelete - oldestDeletePriority exp now machine

/-- The function `randomDeletePolicy`. -/
def randomDeletePolicy (machine : Machine) : α :=
  if !IsZero machine.DeletionTimestamp then mustDelete
  else if (machine.ObjectMeta.Annotations.lookup DeleteMachineAnnotation).isSome then
    shouldDelete
  else if !isMachineHealthy machine then betterDelete
  else couldDelete

end Priority

/-! ## Ranked selector -/

section Selector

variable {α : Type} [LinearOrder α]

/-- The type `sortableMachines`: a slice of machines and a priority function. -/
structure sortableMachines (α : Type) where
  machines : List Machine
  priority : Machine → α

/-- The method `Len`. -/
def sortableMachines.Len (m : sortableMachines α) : Nat := m.machines.length

/-- The method `Swap`: exchanges the machines at `i` and `j`.  An index out of range makes
the source panic; here it leaves `m` as it is. -/
def sortableMachines.Swap (m : sortableMachines α) (i j : Nat) : sortableMachines α :=
  match m.machines[i]?, m.machines[j]? with
  | some mi, some mj => { m with machines := (m.machines.set i mj).set j mi }
  | _, _ => m

/-- The order `<` of strings, decided character by character on their contents (the
proposition is the one of the standard order on `String`). -/
instance stringDecidableLT (a b : String) : Decidable (a < b) :=
  decidable_of_iff (a.toList < b.toList) String.lt_iff_toList_lt.symm

/-- The comparison made by `Less` on the two machines it reads. -/
def lessMachine (priority : Machine → α) (mi mj : Machine) : Bool :=
  let priorityI := priority mi
  let priorityJ := priority mj
  if priorityI = priorityJ then
    decide (mi.Name < mj.Name)
  else
    decide (priorityJ < priorityI)

/-- The strict rank order: `a` goes before `b` when its priority is higher, or the
priorities are equal and its name is smaller. -/
def ranksBefore (priority : Machine → α) (a b : Machine) : Prop :=
  priority b < priority a ∨ (priority a = priority b ∧ a.Name < b.Name)

/-- The relation that sorting by `Less` establishes between a machine and a later one:
the later one does not go before it. -/
def mayPrecede (priority : Machine → α) (a b : Machine) : Prop :=
  ¬ ranksBefore priority b a

/-- The method `Less`.  An index out of range makes the source panic; here it yields
`false`. -/
def sortableMachines.Less (m : sortableMachines α) (i j : Nat) : Bool :=
  match m.machines[i]?, m.machines[j]? with
  | some mi, some mj => lessMachine m.priority mi mj
  | _, _ => false

/-- The state reached from `m` by a sequence of `Swap` calls. -/
def applySwaps (m : sortableMachines α) : List (Nat × Nat) → sortableMachines α
  | [] => m
  | p :: rest => applySwaps (m.Swap p.1 p.2) rest

/-- What `sort.Sort` promises of its argument: it changes the data through in-range calls
of `Swap` only, and leaves it in ascending order as determined by `Less`. -/
structure SortContract (sortSort : sortableMachines α → sortableMachines α) : Prop where
  swaps : ∀ m, ∃ s : List (Nat × Nat),
    (∀ p ∈ s, p.1 < m.Len ∧ p.2 < m.Len) ∧ sortSort m = applySwaps m s
  sorted : ∀ m i j, i < j → j < m.Len → (sortSort m).Less j i = false

/-- The inner loop of the insertion sort of package `sort`:
`for j := i; j > 0 && data.Less(j, j-1); j-- { data.Swap(j, j-1) }`. -/
def insertionSortInner (m : sortableMachines α) : Nat → sortableMachines α
  | 0 => m
  | j + 1 => if m.Less (j + 1) j then insertionSortInner (m.Swap (j + 1) j) j else m

/-- The outer loop of the insertion sort of package `sort`, `for i := 1; i < n; i++`, with
`k` iterations left to run. -/
def insertionSortOuter (m : sortableMachines α) (i : Nat) : Nat → sortableMachines α
  | 0 => m
  | k + 1 => insertionSortOuter (insertionSortInner m i) (i + 1) k

/-- The insertion sort of package `sort` over the whole of the data, which is what
`sort.Sort` runs on a slice of at most 12 elements. -/
def insertionSort (m : sortableMachines α) : sortableMachines α :=
  insertionSortOuter m 1 (m.Len - 1)

/-- What a call of `getMachinesToDeletePrioritized` leaves behind: the contents of the
caller's slice after the call, and the returned sequence. -/
structure Selection where
  filteredMachines : List Machine
  result : List Machine
  deriving DecidableEq, Repr

/-- The function `getMachinesToDeletePrioritized`.  `sortable.machines` shares its elements
with `filteredMachines`, so the slice of the caller ends up as `sort.Sort` leaves it. -/
def getMachinesToDeletePrioritized (sortSort : sortableMachines α → sortableMachines α)
    (filteredMachines : List Machine) (diff : Int) (fun_ : Machine → α) : Selection :=
  if diff ≥ (filteredMachines.length : Int) then
    ⟨filteredMachines, filteredMachines⟩
  else if diff ≤ 0 then
    ⟨filteredMachines, []⟩
  else
    let sortable : sortableMachines α := ⟨filteredMachines, fun_⟩
    let sortable := sortSort sortable
    ⟨sortable.machines, sortable.machines.take diff.toNat⟩

end Selector

/-! ## Policy resolver -/

section Resolver

variable {α : Type} [LinearOrderedField α]

/-- Modelled from the spec: the part of a machine set that the resolver reads, the
configured policy string `ms.Spec.DeletePolicy`. -/
structure MachineSetSpec where
  DeletePolicy : String
  deriving DecidableEq, Repr

/-- Modelled from the spec: a machine set, `clusterv1.MachineSet`. -/
structure MachineSet where
  Spec : MachineSetSpec
  deriving DecidableEq, Repr

/-- Modelled from the spec: the policy name "Random". -/
def RandomMachineSetDeletePolicy : String := "Random"

/-- Modelled from the spec: the policy name "Newest". -/
def NewestMachineSetDeletePolicy : String := "Newest"

/-- Modelled from the spec: the policy name "Oldest". -/
def OldestMachineSetDeletePolicy : String := "Oldest"

/-- The function `getDeletePriorityFunc`: the priority function of the configured policy,
or the message of the error. -/
def getDeletePriorityFunc (exp : α → α) (now : Time) (ms : MachineSet) :
    Except String (Machine → α) :=
  let msdp := ms.Spec.DeletePolicy
  if msdp = RandomMachineSetDeletePolicy then .ok randomDeletePolicy
  else if msdp = NewestMachineSetDeletePolicy then .ok (newestDeletePriority exp now)
  else if msdp = OldestMachineSetDeletePolicy then .ok (oldestDeletePriority exp now)
  else if msdp = "" then .ok randomDeletePolicy
  else .error ("Unsupported delete policy " ++ msdp
    ++ ". Must be one of \x27Random\x27, \x27Newest\x27, or \x27Oldest\x27")

end Resolver

/-! ## Mark tiers -/

/-- The mark tier of a member: 2 with an active deletion request, 1 with the
forced-deletion marker and no deletion request, 0 with neither. -/
def markTier (m : Machine) : Nat :=
  if !IsZero m.DeletionTimestamp then 2
  else if (m.ObjectMeta.Annotations.lookup DeleteMachineAnnotation).isSome then 1
  else 0

/-! ## The members of the end-to-end examples -/

/-- The length of a day in nanoseconds. -/
def day : Int := 86400 * 1000000000

/-- The current time of the examples. -/
def exampleNow : Time := ⟨739000 * day⟩

/-- A healthy member called `name` that was created `age` days before `exampleNow`. -/
def healthyMember (name : String) (age : Int) : Machine :=
  { ObjectMeta :=
      { Name := name, CreationTimestamp := ⟨exampleNow.ns - age * day⟩,
        DeletionTimestamp := none, Annotations := [] },
    Status := { NodeRef := some "node", Deprecated := none, V1Beta1Conditions := [] } }

/-- Member A: healthy, 20 days old. -/
def exampleA : Machine := healthyMember "A" 20

/-- Member B: unhealthy (it has no node binding). -/
def exampleB : Machine :=
  { healthyMember "B" 5 with
    Status := { NodeRef := none, Deprecated := none, V1Beta1Conditions := [] } }

/-- Member C: healthy and carrying the forced-deletion marker. -/
def exampleC : Machine :=
  { healthyMember "C" 5 with
    ObjectMeta :=
      { Name := "C", CreationTimestamp := ⟨exampleNow.ns - 5 * day⟩,
        DeletionTimestamp := none, Annotations := [( DeleteMachineAnnotation, "")] } }

/-- Member D: healthy, 1 day old. -/
def exampleD : Machine := healthyMember "D" 1

/-- A member with an active deletion request. -/
def exampleE : Machine :=
  { healthyMember "E" 5 with
    ObjectMeta :=
      { Name := "E", CreationTimestamp := ⟨exampleNow.ns - 5 * day⟩,
        DeletionTimestamp := some ⟨exampleNow.ns - 1⟩, Annotations := [] } }

/-- A healthy member whose creation time is unset. -/
def exampleUnset : Machine :=
  { healthyMember "U" 0 with
    ObjectMeta :=
      { Name := "U", CreationTimestamp := ⟨0⟩, DeletionTimestamp := none,
        Annotations := [] } }

/-- An unhealthy member (it has no node binding) with an active deletion request. -/
def exampleF : Machine :=
  { exampleE with
    Status := { NodeRef := none, Deprecated := none, V1Beta1Conditions := [] } }

/-- Member X: healthy, 5 days old. -/
def exampleX : Machine := healthyMember "X" 5

/-- Member Y: healthy, 3 days old. -/
def exampleY : Machine := healthyMember "Y" 3

/-- Member Z: healthy, 1 day old. -/
def exampleZ : Machine := healthyMember "Z" 1

/-- A healthy member called `name` that was created `ns` nanoseconds after the zero
instant. -/
def ancientMember (name : String) (ns : Int) : Machine :=
  { healthyMember name 0 with
    ObjectMeta :=
      { Name := name, CreationTimestamp := ⟨ns⟩, DeletionTimestamp := none,
        Annotations := [] } }

/-! ## Lemmas on the order of `Less` -/

section OrderLemmas

variable {α : Type} [LinearOrder α]

theorem lessMachine_iff (priority : Machine → α) (a b : Machine) :
    lessMachine priority a b = true ↔ ranksBefore priority a b := by
  unfold lessMachine ranksBefore
  by_cases h : priority a = priority b
  · simp [h]
  · simp only [h, if_false, decide_eq_true_eq, false_and, or_false]

theorem ranksBefore_asymm (priority : Machine → α) {a b : Machine}
    (hab : ranksBefore priority a b) : ¬ ranksBefore priority b a := by
  rintro (h | ⟨h, hn⟩)
  · rcases hab with h2 | ⟨h2, _⟩
    · exact lt_asymm h h2
    · exact absurd h2 (ne_of_lt h)
  · rcases hab with h2 | ⟨_, hn2⟩
    · exact absurd h.symm (ne_of_gt h2)
    · exact lt_asymm hn hn2

theorem ranksBefore_trans (priority : Machine → α) {a b c : Machine}
    (hab : ranksBefore priority a b) (hbc : ranksBefore priority b c) :
    ranksBefore priority a c := by
  rcases hab with h1 | ⟨h1, n1⟩ <;> rcases hbc with h2 | ⟨h2, n2⟩
  · exact Or.inl (lt_trans h2 h1)
  · exact Or.inl (h2 ▸ h1)
  · exact Or.inl (h1 ▸ h2)
  · exact Or.inr ⟨h1.trans h2, lt_trans n1 n2⟩

/-- Two machines with different names are ranked one way or the other. -/
theorem ranksBefore_total (priority : Machine → α) {a b : Machine} (hne : a.Name ≠ b.Name) :
    ranksBefore priority a b ∨ ranksBefore priority b a := by
  rcases lt_trichotomy (priority a) (priority b) with h | h | h
  · exact Or.inr (Or.inl h)
  · rcases lt_or_gt_of_ne hne with hn | hn
    · exact Or.inl (Or.inr ⟨h, hn⟩)
    · exact Or.inr (Or.inr ⟨h.symm, hn⟩)
  · exact Or.inl (Or.inl h)

/-- The relation `¬ b before a` is transitive. -/
theorem not_ranksBefore_trans (priority : Machine → α) {a b c : Machine}
    (hab : ¬ ranksBefore priority b a) (hbc : ¬ ranksBefore priority c b) :
    ¬ ranksBefore priority c a := by
  unfold ranksBefore at *
  push_neg at *
  obtain ⟨h1, n1⟩ := hab
  obtain ⟨h2, n2⟩ := hbc
  refine ⟨le_trans h2 h1, fun hca => ?_⟩
  have hcb : priority c = priority b := le_antisymm h2 (hca ▸ h1)
  have hba : priority b = priority a := hcb ▸ hca
  exact le_trans (n1 hba) (n2 hcb)

end OrderLemmas

/-! ## Lemmas on `Swap` and on the contract of `sort.Sort` -/

section SwapLemmas

variable {α : Type}

theorem Swap_priority (m : sortableMachines α) (i j : Nat) :
    (m.Swap i j).priority = m.priority := by
  unfold sortableMachines.Swap
  split <;> rfl

/-- Overwriting position `j` with `a` and putting the old element in front permutes
`a :: l`. -/
theorem getElem_cons_set_perm (l : List Machine) (j : Nat) (h : j < l.length) (a : Machine) :
    (l[j] :: l.set j a).Perm (a :: l) := by
  induction l generalizing j with
  | nil => exact absurd h (Nat.not_lt_zero _)
  | cons b l ih =>
    cases j with
    | zero => exact List.Perm.swap a b l
    | succ j =>
      have hj : j < l.length := Nat.lt_of_succ_lt_succ h
      have h1 : (l[j] :: b :: l.set j a).Perm (b :: l[j] :: l.set j a) := List.Perm.swap _ _ _
      have h2 : (b :: l[j] :: l.set j a).Perm (b :: a :: l) := (ih j hj).cons b
      exact (h1.trans h2).trans (List.Perm.swap a b l)

/-- Exchanging two elements of a list permutes it. -/
theorem set_set_perm (l : List Machine) (i j : Nat) (hi : i < l.length) (hj : j < l.length) :
    ((l.set i l[j]).set j l[i]).Perm l := by
  induction l generalizing i j with
  | nil => exact absurd hi (Nat.not_lt_zero _)
  | cons b l ih =>
    cases i with
    | zero =>
      cases j with
      | zero => exact List.Perm.refl _
      | succ j => exact getElem_cons_set_perm l j (Nat.lt_of_succ_lt_succ hj) b
    | succ i =>
      cases j with
      | zero => exact getElem_cons_set_perm l i (Nat.lt_of_succ_lt_succ hi) b
      | succ j =>
        exact (ih i j (Nat.lt_of_succ_lt_succ hi) (Nat.lt_of_succ_lt_succ hj)).cons b

theorem Swap_perm (m : sortableMachines α) (i j : Nat) :
    (m.Swap i j).machines.Perm m.machines := by
  unfold sortableMachines.Swap
  split
  · next mi mj hi hj =>
    obtain ⟨hil, hie⟩ := List.getElem?_eq_some_iff.mp hi
    obtain ⟨hjl, hje⟩ := List.getElem?_eq_some_iff.mp hj
    subst hie hje
    exact set_set_perm m.machines i j hil hjl
  · exact List.Perm.refl _

theorem Swap_Len (m : sortableMachines α) (i j : Nat) : (m.Swap i j).Len = m.Len :=
  (Swap_perm m i j).length_eq

theorem applySwaps_priority (s : List (Nat × Nat)) (m : sortableMachines α) :
    (applySwaps m s).priority = m.priority := by
  induction s generalizing m with
  | nil => rfl
  | cons p rest ih => simp only [applySwaps, ih, Swap_priority]

theorem applySwaps_perm (s : List (Nat × Nat)) (m : sortableMachines α) :
    (applySwaps m s).machines.Perm m.machines := by
  induction s generalizing m with
  | nil => exact List.Perm.refl _
  | cons p rest ih => exact (ih _).trans (Swap_perm m p.1 p.2)

theorem applySwaps_append (s t : List (Nat × Nat)) (m : sortableMachines α) :
    applySwaps m (s ++ t) = applySwaps (applySwaps m s) t := by
  induction s generalizing m with
  | nil => rfl
  | cons p rest ih => exact ih (m.Swap p.1 p.2)

theorem SortContract.priority_eq [LinearOrder α] {sortSort : sortableMachines α → sortableMachines α}
    (h : SortContract sortSort) (m : sortableMachines α) :
    (sortSort m).priority = m.priority := by
  obtain ⟨s, -, hs⟩ := h.swaps m
  rw [hs, applySwaps_priority]

theorem SortContract.perm [LinearOrder α] {sortSort : sortableMachines α → sortableMachines α}
    (h : SortContract sortSort) (m : sortableMachines α) :
    (sortSort m).machines.Perm m.machines := by
  obtain ⟨s, -, hs⟩ := h.swaps m
  rw [hs]
  exact applySwaps_perm s m

/-- After `sort.Sort`, no machine ranks before one that precedes it. -/
theorem SortContract.pairwise [LinearOrder α] {sortSort : sortableMachines α → sortableMachines α}
    (h : SortContract sortSort) (m : sortableMachines α) :
    (sortSort m).machines.Pairwise (mayPrecede m.priority) := by
  rw [List.pairwise_iff_getElem]
  intro i j hi hj hij
  have hlen : (sortSort m).machines.length = m.Len := (h.perm m).length_eq
  have hs := h.sorted m i j hij (hlen ▸ hj)
  unfold sortableMachines.Less at hs
  rw [List.getElem?_eq_getElem hi, List.getElem?_eq_getElem hj] at hs
  simp only [h.priority_eq] at hs
  intro hr
  rw [← lessMachine_iff] at hr
  rw [hr] at hs
  exact Bool.noConfusion hs

end SwapLemmas

/-! ## The insertion sort meets the contract of `sort.Sort` -/

section InsertionSort

variable {α : Type} [LinearOrder α]

theorem insertionSortInner_priority (j : Nat) (m : sortableMachines α) :
    (insertionSortInner m j).priority = m.priority := by
  induction j generalizing m with
  | zero => rfl
  | succ j ih =>
    unfold insertionSortInner
    split
    · rw [ih, Swap_priority]
    · rfl

theorem insertionSortInner_swaps (j : Nat) (m : sortableMachines α) (hj : j < m.Len) :
    ∃ s : List (Nat × Nat),
      (∀ p ∈ s, p.1 < m.Len ∧ p.2 < m.Len) ∧ insertionSortInner m j = applySwaps m s := by
  induction j generalizing m with
  | zero => exact ⟨[], fun p hp => absurd hp (List.not_mem_nil p), rfl⟩
  | succ j ih =>
    unfold insertionSortInner
    split
    · have hlen : (m.Swap (j + 1) j).Len = m.Len := Swap_Len m (j + 1) j
      obtain ⟨s, hs, he⟩ := ih (m.Swap (j + 1) j) (by omega)
      refine ⟨(j + 1, j) :: s, ?_, ?_⟩
      · intro p hp
        rcases List.mem_cons.mp hp with rfl | hp
        · exact ⟨hj, by omega⟩
        · exact hlen ▸ hs p hp
      · rw [he]; rfl
    · exact ⟨[], fun p hp => absurd hp (List.not_mem_nil p), rfl⟩

theorem insertionSortOuter_swaps (k i : Nat) (m : sortableMachines α)
    (hk : k ≠ 0 → i + k ≤ m.Len) :
    ∃ s : List (Nat × Nat),
      (∀ p ∈ s, p.1 < m.Len ∧ p.2 < m.Len) ∧ insertionSortOuter m i k = applySwaps m s := by
  induction k generalizing i m with
  | zero => exact ⟨[], fun p hp => absurd hp (List.not_mem_nil p), rfl⟩
  | succ k ih =>
    have hi : i < m.Len := by have := hk (Nat.succ_ne_zero k); omega
    obtain ⟨s, hs, he⟩ := insertionSortInner_swaps i m hi
    have hlen : (insertionSortInner m i).Len = m.Len := by
      rw [he]; exact (applySwaps_perm s m).length_eq
    obtain ⟨t, ht, hte⟩ := ih (i + 1) (insertionSortInner m i) (fun _ => by
      have := hk (Nat.succ_ne_zero k); omega)
    refine ⟨s ++ t, ?_, ?_⟩
    · intro p hp
      rcases List.mem_append.mp hp with hp | hp
      · exact hs p hp
      · exact hlen ▸ ht p hp
    · rw [applySwaps_append, ← he]; exact hte

theorem getElem?_append_length (A T : List Machine) (a : Machine) :
    (A ++ a :: T)[A.length]? = some a := by
  induction A with
  | nil => simp
  | cons b A ih => simpa using ih

theorem getElem?_append_length_succ (A T : List Machine) (a x : Machine) :
    (A ++ a :: x :: T)[A.length + 1]? = some x := by
  induction A with
  | nil => simp
  | cons b A ih => simpa using ih

theorem set_append_length (A T : List Machine) (a y : Machine) :
    (A ++ a :: T).set A.length y = A ++ y :: T := by
  induction A with
  | nil => rfl
  | cons b A ih => simp

theorem set_append_length_succ (A T : List Machine) (a x y : Machine) :
    (A ++ a :: x :: T).set (A.length + 1) y = A ++ a :: y :: T := by
  induction A with
  | nil => rfl
  | cons b A ih => simp

omit [LinearOrder α] in
/-- Exchanging the neighbours at positions `A.length + 1` and `A.length`. -/
theorem Swap_adjacent (m : sortableMachines α) (A T : List Machine) (a x : Machine)
    (hm : m.machines = A ++ a :: x :: T) :
    (m.Swap (A.length + 1) A.length).machines = A ++ x :: a :: T := by
  unfold sortableMachines.Swap
  rw [hm, getElem?_append_length_succ, getElem?_append_length]
  show ((A ++ a :: x :: T).set (A.length + 1) a).set A.length x = A ++ x :: a :: T
  rw [set_append_length_succ, set_append_length]

theorem Less_adjacent (m : sortableMachines α) (A T : List Machine) (a x : Machine)
    (hm : m.machines = A ++ a :: x :: T) :
    m.Less (A.length + 1) A.length = lessMachine m.priority x a := by
  unfold sortableMachines.Less
  rw [hm, getElem?_append_length_succ, getElem?_append_length]

/-- The inner loop inserts the machine at position `j` into the sorted run before it. -/
theorem insertionSortInner_sorted (j : Nat) (m : sortableMachines α)
    (A B R : List Machine) (x : Machine)
    (hm : m.machines = A ++ x :: (B ++ R)) (hA : A.length = j)
    (hAB : (A ++ B).Pairwise (mayPrecede m.priority))
    (hx : ∀ b ∈ B, ranksBefore m.priority x b) :
    ∃ S, (insertionSortInner m j).machines = S ++ R ∧ S.length = j + 1 + B.length ∧
      S.Pairwise (mayPrecede m.priority) := by
  induction j generalizing m A B with
  | zero =>
    have hnil : A = [] := List.eq_nil_of_length_eq_zero hA
    subst hnil
    refine ⟨x :: B, by simpa using hm, by simp; omega, ?_⟩
    rw [List.pairwise_cons]
    exact ⟨fun b hb => ranksBefore_asymm m.priority (hx b hb), by simpa using hAB⟩
  | succ j ih =>
    have hne : A ≠ [] := by
      intro h; rw [h] at hA; exact absurd hA (by simp)
    obtain ⟨A1, a, rfl⟩ : ∃ A1 a, A = A1 ++ [a] :=
      ⟨A.dropLast, A.getLast hne, (List.dropLast_append_getLast hne).symm⟩
    have hA1 : A1.length = j := by simpa using hA
    have hm1 : m.machines = A1 ++ a :: x :: (B ++ R) := by
      rw [hm]; simp
    have hless := Less_adjacent m A1 (B ++ R) a x hm1
    rw [hA1] at hless
    unfold insertionSortInner
    by_cases hc : m.Less (j + 1) j = true
    · rw [if_pos hc]
      have hsw := Swap_adjacent m A1 (B ++ R) a x hm1
      rw [hA1] at hsw
      have hp : (m.Swap (j + 1) j).priority = m.priority := Swap_priority m (j + 1) j
      obtain ⟨S, hS, hlen, hsorted⟩ := ih (m.Swap (j + 1) j) A1 (a :: B)
        (by rw [hsw]; simp) hA1
        (by rw [hp]; simpa using hAB)
        (by
          rw [hp]
          intro b hb
          rcases List.mem_cons.mp hb with rfl | hb
          · exact (lessMachine_iff m.priority x b).mp (hless ▸ hc)
          · exact hx b hb)
      refine ⟨S, hS, by rw [hlen]; simp; omega, hp ▸ hsorted⟩
    · rw [if_neg hc]
      have hxa : mayPrecede m.priority a x := by
        intro h
        exact hc (hless ▸ (lessMachine_iff m.priority x a).mpr h)
      have hAB2 := List.pairwise_append.mp hAB
      refine ⟨(A1 ++ [a]) ++ x :: B, by rw [hm]; simp, by simp; omega, ?_⟩
      rw [List.pairwise_append]
      refine ⟨hAB2.1, ?_, ?_⟩
      · rw [List.pairwise_cons]
        exact ⟨fun b hb => ranksBefore_asymm m.priority (hx b hb), hAB2.2.1⟩
      · intro c hc1 y hy
        rcases List.mem_cons.mp hy with rfl | hy
        · rcases List.mem_append.mp hc1 with hc2 | hc2
          · have hca : mayPrecede m.priority c a := by
              have := (List.pairwise_append.mp hAB2.1).2.2 c hc2 a (by simp)
              exact this
            exact not_ranksBefore_trans m.priority hca hxa
          · have : c = a := by simpa using hc2
            exact this ▸ hxa
        · exact hAB2.2.2 c hc1 y hy

/-- The outer loop extends the sorted run to the whole of the data. -/
theorem insertionSortOuter_sorted (k i : Nat) (m : sortableMachines α)
    (S R : List Machine) (hm : m.machines = S ++ R) (hS : S.length = i) (hR : R.length = k)
    (hsorted : S.Pairwise (mayPrecede m.priority)) :
    (insertionSortOuter m i k).machines.Pairwise (mayPrecede m.priority) := by
  induction k generalizing i m S R with
  | zero =>
    have hnil : R = [] := List.eq_nil_of_length_eq_zero hR
    subst hnil
    unfold insertionSortOuter
    rw [hm]
    simpa using hsorted
  | succ k ih =>
    cases R with
    | nil => exact absurd hR (by simp)
    | cons x R =>
      obtain ⟨S1, hS1, hlen, hsorted1⟩ := insertionSortInner_sorted i m S [] R x
        (by rw [hm]; simp) hS (by simpa using hsorted)
        (fun b hb => absurd hb (List.not_mem_nil b))
      have hp := insertionSortInner_priority i m
      have := ih (i + 1) (insertionSortInner m i) S1 R hS1 (by simpa using hlen)
        (by simpa using hR) (hp ▸ hsorted1)
      unfold insertionSortOuter
      exact hp ▸ this

theorem insertionSort_sorted (m : sortableMachines α) :
    (insertionSort m).machines.Pairwise (mayPrecede m.priority) := by
  unfold insertionSort
  cases hl : m.machines with
  | nil =>
    have : m.Len - 1 = 0 := by simp [sortableMachines.Len, hl]
    rw [this]
    unfold insertionSortOuter
    rw [hl]
    exact List.Pairwise.nil
  | cons x R =>
    have hk : m.Len - 1 = R.length := by simp [sortableMachines.Len, hl]
    rw [hk]
    exact insertionSortOuter_sorted R.length 1 m [x] R (by rw [hl]; rfl) rfl rfl
      (List.pairwise_singleton _ _)

/-- The insertion sort of package `sort` does what `sort.Sort` promises. -/
theorem insertionSort_contract : SortContract (@insertionSort α _) where
  swaps := fun m => insertionSortOuter_swaps (m.Len - 1) 1 m (fun h => by omega)
  sorted := by
    intro m i j hij hj
    obtain ⟨s, -, hs⟩ := insertionSortOuter_swaps (m.Len - 1) 1 m (fun h => by omega)
    have hperm : (insertionSort m).machines.Perm m.machines := by
      unfold insertionSort; rw [hs]; exact applySwaps_perm s m
    have hprio : (insertionSort m).priority = m.priority := by
      unfold insertionSort; rw [hs]; exact applySwaps_priority s m
    have hjl : j < (insertionSort m).machines.length := by
      rw [hperm.length_eq]; exact hj
    have hil : i < (insertionSort m).machines.length := by omega
    have hpw := List.pairwise_iff_getElem.mp (insertionSort_sorted m) i j hil hjl hij
    unfold sortableMachines.Less
    rw [List.getElem?_eq_getElem hjl, List.getElem?_eq_getElem hil]
    simp only [hprio]
    cases hb : lessMachine m.priority (insertionSort m).machines[j]
        (insertionSort m).machines[i] with
    | false => rfl
    | true => exact absurd ((lessMachine_iff _ _ _).mp hb) hpw

end InsertionSort

/-! ## The ranked selector -/

section SelectorTheorems

variable {α : Type} [LinearOrder α]

/-- With pairwise distinct names, sorting leaves the machines strictly ranked. -/
theorem SortContract.ranked {sortSort : sortableMachines α → sortableMachines α}
    (h : SortContract sortSort) (m : sortableMachines α)
    (hnames : m.machines.Pairwise (fun a b => a.Name ≠ b.Name)) :
    (sortSort m).machines.Pairwise (ranksBefore m.priority) := by
  have hn : (sortSort m).machines.Pairwise (fun a b => a.Name ≠ b.Name) :=
    ((h.perm m).pairwise_iff (fun {a b} (hab : a.Name ≠ b.Name) => hab.symm)).mpr hnames
  refine (hn.and (h.pairwise m)).imp ?_
  rintro a b ⟨hne, hab⟩
  exact (ranksBefore_total m.priority hne).resolve_right hab

/-- A list has at most one strictly ranked rearrangement. -/
theorem ranked_unique (priority : Machine → α) {l₁ l₂ : List Machine} (hp : l₁.Perm l₂)
    (h₁ : l₁.Pairwise (ranksBefore priority)) (h₂ : l₂.Pairwise (ranksBefore priority)) :
    l₁ = l₂ := by
  haveI : IsAntisymm Machine (ranksBefore priority) :=
    ⟨fun a b hab hba => absurd hba (ranksBefore_asymm priority hab)⟩
  exact List.eq_of_perm_of_sorted hp h₁ h₂

omit [LinearOrder α] in
/-- What the selector does when `0 < diff < len(filteredMachines)`. -/
theorem getMachinesToDeletePrioritized_sort
    (sortSort : sortableMachines α → sortableMachines α) (members : List Machine)
    (priority : Machine → α) (n : Int) (h0 : 0 < n) (hn : n < members.length) :
    getMachinesToDeletePrioritized sortSort members n priority =
      ⟨(sortSort ⟨members, priority⟩).machines,
        (sortSort ⟨members, priority⟩).machines.take n.toNat⟩ := by
  unfold getMachinesToDeletePrioritized
  rw [if_neg (by omega), if_neg (by omega)]

/-- With pairwise distinct names, the selector is determined by the ranked rearrangement
of its input. -/
theorem getMachinesToDeletePrioritized_eq_of_ranked
    (sortSort : sortableMachines α → sortableMachines α) (hsort : SortContract sortSort)
    (members ranked : List Machine) (priority : Machine → α) (n : Int)
    (hnames : members.Pairwise (fun a b => a.Name ≠ b.Name))
    (h0 : 0 < n) (hn : n < members.length)
    (hperm : ranked.Perm members) (hranked : ranked.Pairwise (ranksBefore priority)) :
    getMachinesToDeletePrioritized sortSort members n priority
      = ⟨ranked, ranked.take n.toNat⟩ := by
  rw [getMachinesToDeletePrioritized_sort sortSort members priority n h0 hn]
  have h := ranked_unique priority ((hsort.perm ⟨members, priority⟩).trans hperm.symm)
    (hsort.ranked ⟨members, priority⟩ hnames) hranked
  simp only at h
  rw [h]

/-- Whatever is left unselected sits behind the selected machines in the sorted slice. -/
theorem getMachinesToDeletePrioritized_unselected
    (sortSort : sortableMachines α → sortableMachines α) (hsort : SortContract sortSort)
    (members : List Machine) (priority : Machine → α) (n : Int)
    (h0 : 0 < n) (hn : n < members.length) (rest : List Machine)
    (hrest : ((getMachinesToDeletePrioritized sortSort members n priority).result
      ++ rest).Perm members) :
    ∀ s ∈ (getMachinesToDeletePrioritized sortSort members n priority).result,
      ∀ u ∈ rest, mayPrecede priority s u := by
  rw [getMachinesToDeletePrioritized_sort sortSort members priority n h0 hn] at hrest ⊢
  have hperm := hsort.perm ⟨members, priority⟩
  have hpw := hsort.pairwise ⟨members, priority⟩
  simp only at hperm hpw hrest ⊢
  generalize (sortSort ⟨members, priority⟩).machines = sorted at hperm hpw hrest
  have hsplit : sorted.take n.toNat ++ sorted.drop n.toNat = sorted :=
    List.take_append_drop _ _
  have hr : rest.Perm (sorted.drop n.toNat) := by
    have h1 : (sorted.take n.toNat ++ rest).Perm
        (sorted.take n.toNat ++ sorted.drop n.toNat) := by
      rw [hsplit]; exact hrest.trans hperm.symm
    exact (List.perm_append_left_iff _).mp h1
  intro s hs u hu
  rw [← hsplit] at hpw
  exact (List.pairwise_append.mp hpw).2.2 s hs u (hr.subset hu)

/-- C1: for members with pairwise distinct names, any priority function and any count
`n` with `0 < n < len(members)`, the selector returns the first `n` machines of the one
rearrangement of the input that is in descending priority order with equal priorities in
ascending name order.  The result has `n` elements, none twice, all of them from the
input, and each of them ranks before every member that was not selected. -/
theorem getMachinesToDeletePrioritized_ranked_selection
    (sortSort : sortableMachines α → sortableMachines α) (hsort : SortContract sortSort)
    (members : List Machine) (priority : Machine → α) (n : Int)
    (hnames : members.Pairwise (fun a b => a.Name ≠ b.Name))
    (h0 : 0 < n) (hn : n < members.length) :
    ∃ ranked : List Machine,
      ranked.Perm members ∧ ranked.Pairwise (ranksBefore priority) ∧
      (∀ other : List Machine, other.Perm members →
        other.Pairwise (ranksBefore priority) → other = ranked) ∧
      (getMachinesToDeletePrioritized sortSort members n priority).result
        = ranked.take n.toNat ∧
      ((getMachinesToDeletePrioritized sortSort members n priority).result.length : Int)
        = n ∧
      (getMachinesToDeletePrioritized sortSort members n priority).result.Nodup ∧
      (∀ s ∈ (getMachinesToDeletePrioritized sortSort members n priority).result,
        s ∈ members) ∧
      (∀ s ∈ (getMachinesToDeletePrioritized sortSort members n priority).result,
        ∀ u ∈ members,
          u ∉ (getMachinesToDeletePrioritized sortSort members n priority).result →
          ranksBefore priority s u) := by
  have hperm := hsort.perm ⟨members, priority⟩
  have hranked := hsort.ranked ⟨members, priority⟩ hnames
  rw [getMachinesToDeletePrioritized_sort sortSort members priority n h0 hn]
  simp only at hperm hranked ⊢
  generalize (sortSort ⟨members, priority⟩).machines = ranked at hperm hranked
  have hlen : ranked.length = members.length := hperm.length_eq
  have hirr : ∀ a : Machine, ¬ ranksBefore priority a a :=
    fun a h => ranksBefore_asymm priority h h
  have hsplit : ranked.take n.toNat ++ ranked.drop n.toNat = ranked :=
    List.take_append_drop _ _
  refine ⟨ranked, hperm, hranked, ?_, rfl, ?_, ?_, ?_, ?_⟩
  · intro other ho hor
    exact ranked_unique priority (ho.trans hperm.symm) hor hranked
  · rw [List.length_take, hlen]
    omega
  · have hnodup : ranked.Nodup :=
      hranked.imp (fun {a b} (hab : ranksBefore priority a b) (hEq : a = b) => by
        subst hEq; exact hirr a hab)
    exact hnodup.sublist (List.take_sublist _ _)
  · intro s hs
    exact hperm.subset (List.mem_of_mem_take hs)
  · intro s hs u hu hnot
    have hur : u ∈ ranked := hperm.symm.subset hu
    rw [← hsplit] at hur hranked
    rcases List.mem_append.mp hur with h | h
    · exact absurd h hnot
    · exact (List.pairwise_append.mp hranked).2.2 s hs u h

/-- C1, at a concrete input: the members A, B, C, D of the end-to-end example, ranked by
`randomDeletePolicy`, with `n = 2`. -/
theorem getMachinesToDeletePrioritized_ranked_selection_witness :
    SortContract (@insertionSort ℚ _) ∧
    [exampleA, exampleB, exampleC, exampleD].Pairwise (fun a b => a.Name ≠ b.Name) ∧
    (0 : Int) < 2 ∧ (2 : Int) < [exampleA, exampleB, exampleC, exampleD].length ∧
    ∃ ranked : List Machine,
      ranked.Perm [exampleA, exampleB, exampleC, exampleD] ∧
      ranked.Pairwise (ranksBefore (@randomDeletePolicy ℚ _)) ∧
      (∀ other : List Machine, other.Perm [exampleA, exampleB, exampleC, exampleD] →
        other.Pairwise (ranksBefore (@randomDeletePolicy ℚ _)) → other = ranked) ∧
      (getMachinesToDeletePrioritized insertionSort
        [exampleA, exampleB, exampleC, exampleD] 2 (@randomDeletePolicy ℚ _)).result
        = ranked.take (2 : Int).toNat ∧
      ((getMachinesToDeletePrioritized insertionSort
        [exampleA, exampleB, exampleC, exampleD] 2
          (@randomDeletePolicy ℚ _)).result.length : Int) = 2 ∧
      (getMachinesToDeletePrioritized insertionSort
        [exampleA, exampleB, exampleC, exampleD] 2 (@randomDeletePolicy ℚ _)).result.Nodup ∧
      (∀ s ∈ (getMachinesToDeletePrioritized insertionSort
        [exampleA, exampleB, exampleC, exampleD] 2 (@randomDeletePolicy ℚ _)).result,
        s ∈ [exampleA, exampleB, exampleC, exampleD]) ∧
      (∀ s ∈ (getMachinesToDeletePrioritized insertionSort
        [exampleA, exampleB, exampleC, exampleD] 2 (@randomDeletePolicy ℚ _)).result,
        ∀ u ∈ [exampleA, exampleB, exampleC, exampleD],
          u ∉ (getMachinesToDeletePrioritized insertionSort
            [exampleA, exampleB, exampleC, exampleD] 2 (@randomDeletePolicy ℚ _)).result →
          ranksBefore (@randomDeletePolicy ℚ _) s u) :=
  ⟨insertionSort_contract, by decide, by decide, by decide,
    getMachinesToDeletePrioritized_ranked_selection insertionSort insertionSort_contract
      [exampleA, exampleB, exampleC, exampleD] randomDeletePolicy 2
      (by decide) (by decide) (by decide)⟩

omit [LinearOrder α] in
/-- C4: full scale-down.  For every member list, the empty one included, every priority
function and every count `n ≥ len(members)`, the selector returns the input sequence
itself: every member as often as the input holds it, none left out, none added.  The
slice of the caller is left as it was. -/
theorem getMachinesToDeletePrioritized_full_scale_down
    (sortSort : sortableMachines α → sortableMachines α) (members : List Machine)
    (priority : Machine → α) (n : Int) (hn : (members.length : Int) ≤ n) :
    (getMachinesToDeletePrioritized sortSort members n priority).result = members ∧
    (getMachinesToDeletePrioritized sortSort members n priority).filteredMachines
      = members ∧
    (getMachinesToDeletePrioritized sortSort members n priority).result.Perm members ∧
    ∀ m : Machine,
      (getMachinesToDeletePrioritized sortSort members n priority).result.count m
        = members.count m := by
  unfold getMachinesToDeletePrioritized
  rw [if_pos hn]
  exact ⟨rfl, rfl, List.Perm.refl _, fun _ => rfl⟩

/-- C4, at concrete inputs: two members with `n = 5`, and no member with `n = 0`. -/
theorem getMachinesToDeletePrioritized_full_scale_down_witness :
    (((([exampleD, exampleA] : List Machine).length : Int) ≤ 5) ∧
      (getMachinesToDeletePrioritized insertionSort [exampleD, exampleA] 5
        (@randomDeletePolicy ℚ _)).result = [exampleD, exampleA]) ∧
    (((([] : List Machine).length : Int) ≤ 0) ∧
      (getMachinesToDeletePrioritized insertionSort [] 0
        (@randomDeletePolicy ℚ _)).result = []) :=
  ⟨⟨by decide,
    (getMachinesToDeletePrioritized_full_scale_down insertionSort [exampleD, exampleA]
      randomDeletePolicy 5 (by decide)).1⟩,
   ⟨by decide,
    (getMachinesToDeletePrioritized_full_scale_down insertionSort []
      randomDeletePolicy 0 (by decide)).1⟩⟩

omit [LinearOrder α] in
/-- C5: for every member list, empty or not, every priority function and every count
`n ≤ 0`, the selector returns an empty result and leaves the slice of the caller as it
was.  This covers the case where `n ≥ len(members)` holds as well, which the code tests
first: then the input, which is what the code returns, is empty. -/
theorem getMachinesToDeletePrioritized_nonpositive
    (sortSort : sortableMachines α → sortableMachines α) (members : List Machine)
    (priority : Machine → α) (n : Int) (hn : n ≤ 0) :
    (getMachinesToDeletePrioritized sortSort members n priority).result = [] ∧
    (getMachinesToDeletePrioritized sortSort members n priority).filteredMachines
      = members := by
  unfold getMachinesToDeletePrioritized
  by_cases hlen : n ≥ (members.length : Int)
  · rw [if_pos hlen]
    have h0 : members.length = 0 := by omega
    exact ⟨List.eq_nil_of_length_eq_zero h0, rfl⟩
  · rw [if_neg hlen, if_pos hn]
    exact ⟨rfl, rfl⟩

/-- C5, at concrete inputs: no member with `n = 0`, where `n ≥ len(members)` holds too,
and two members with `n = -1`. -/
theorem getMachinesToDeletePrioritized_nonpositive_witness :
    ((0 : Int) ≤ 0 ∧ (0 : Int) ≥ (([] : List Machine).length : Int) ∧
      (getMachinesToDeletePrioritized insertionSort [] 0
        (@randomDeletePolicy ℚ _)).result = []) ∧
    ((-1 : Int) ≤ 0 ∧
      (getMachinesToDeletePrioritized insertionSort [exampleD, exampleA] (-1)
        (@randomDeletePolicy ℚ _)).result = []) :=
  ⟨⟨by decide, by decide,
    (getMachinesToDeletePrioritized_nonpositive insertionSort []
      randomDeletePolicy 0 (by decide)).1⟩,
   ⟨by decide,
    (getMachinesToDeletePrioritized_nonpositive insertionSort [exampleD, exampleA]
      randomDeletePolicy (-1) (by decide)).1⟩⟩

/-- C6, as stated, fails: the members A, B, C, D handed over in this order with `n = 2`
and `randomDeletePolicy` come back from the call in the order C, B, A, D, and the
result C, B is the front of that reordered sequence. -/
theorem getMachinesToDeletePrioritized_reorders_input :
    (getMachinesToDeletePrioritized insertionSort
        [exampleA, exampleB, exampleC, exampleD] 2
        (@randomDeletePolicy ℚ _)).filteredMachines
      = [exampleC, exampleB, exampleA, exampleD] ∧
    [exampleC, exampleB, exampleA, exampleD] ≠ [exampleA, exampleB, exampleC, exampleD] ∧
    (getMachinesToDeletePrioritized insertionSort
        [exampleA, exampleB, exampleC, exampleD] 2 (@randomDeletePolicy ℚ _)).result
      = [exampleC, exampleB] := by
  decide

/-- C6, amended: after the call the slice of the caller holds the same members as before,
each as often as before, but not always in the same positions.  It is untouched when
`n ≥ len(members)` or `n ≤ 0`; otherwise it is left sorted by `Less`, and the result is
its first `n` elements. -/
theorem getMachinesToDeletePrioritized_input_after_call
    (sortSort : sortableMachines α → sortableMachines α) (hsort : SortContract sortSort)
    (members : List Machine) (priority : Machine → α) (n : Int) :
    (getMachinesToDeletePrioritized sortSort members n priority).filteredMachines.Perm
      members ∧
    ((members.length : Int) ≤ n ∨ n ≤ 0 →
      (getMachinesToDeletePrioritized sortSort members n priority).filteredMachines
        = members) ∧
    (0 < n → n < (members.length : Int) →
      (getMachinesToDeletePrioritized sortSort members n priority).filteredMachines.Pairwise
        (mayPrecede priority) ∧
      (getMachinesToDeletePrioritized sortSort members n priority).result
        = (getMachinesToDeletePrioritized sortSort members n
            priority).filteredMachines.take n.toNat) := by
  refine ⟨?_, ?_, ?_⟩
  · unfold getMachinesToDeletePrioritized
    split
    · exact List.Perm.refl _
    · split
      · exact List.Perm.refl _
      · exact hsort.perm ⟨members, priority⟩
  · intro h
    unfold getMachinesToDeletePrioritized
    split
    · rfl
    · split
      · rfl
      · omega
  · intro h0 hn
    rw [getMachinesToDeletePrioritized_sort sortSort members priority n h0 hn]
    exact ⟨hsort.pairwise ⟨members, priority⟩, rfl⟩

/-- C6, amended, at a concrete input: the members A, B, C, D with `n = 2`. -/
theorem getMachinesToDeletePrioritized_input_after_call_witness :
    SortContract (@insertionSort ℚ _) ∧ (0 : Int) < 2 ∧
    (2 : Int) < (([exampleA, exampleB, exampleC, exampleD] : List Machine).length : Int) ∧
    (getMachinesToDeletePrioritized insertionSort
        [exampleA, exampleB, exampleC, exampleD] 2
        (@randomDeletePolicy ℚ _)).filteredMachines.Pairwise
      (mayPrecede (@randomDeletePolicy ℚ _)) ∧
    (getMachinesToDeletePrioritized insertionSort
        [exampleA, exampleB, exampleC, exampleD] 2 (@randomDeletePolicy ℚ _)).result
      = (getMachinesToDeletePrioritized insertionSort
          [exampleA, exampleB, exampleC, exampleD] 2
          (@randomDeletePolicy ℚ _)).filteredMachines.take (2 : Int).toNat :=
  ⟨insertionSort_contract, by decide, by decide,
    (getMachinesToDeletePrioritized_input_after_call insertionSort insertionSort_contract
      [exampleA, exampleB, exampleC, exampleD] randomDeletePolicy 2).2.2
      (by decide) (by decide)⟩

/-- C13: input-order independence.  For two member lists that are permutations of each
other, with pairwise distinct names, every priority function and every `n` with
`0 < n < len(members)`, the selector returns the same sequence for both lists, and leaves
both slices in the same order, whichever sorting algorithms that meet the contract of
`sort.Sort` are used for the two calls. -/
theorem getMachinesToDeletePrioritized_order_independent
    (sortSort₁ sortSort₂ : sortableMachines α → sortableMachines α)
    (hsort₁ : SortContract sortSort₁) (hsort₂ : SortContract sortSort₂)
    (members₁ members₂ : List Machine) (hperm : members₁.Perm members₂)
    (hnames : members₁.Pairwise (fun a b => a.Name ≠ b.Name))
    (priority : Machine → α) (n : Int) (h0 : 0 < n) (hn : n < members₁.length) :
    (getMachinesToDeletePrioritized sortSort₁ members₁ n priority).result
      = (getMachinesToDeletePrioritized sortSort₂ members₂ n priority).result ∧
    (getMachinesToDeletePrioritized sortSort₁ members₁ n priority).filteredMachines
      = (getMachinesToDeletePrioritized sortSort₂ members₂ n priority).filteredMachines := by
  have hnames₂ : members₂.Pairwise (fun a b => a.Name ≠ b.Name) :=
    (hperm.pairwise_iff (fun {a b} (hab : a.Name ≠ b.Name) => hab.symm)).mp hnames
  have hn₂ : n < members₂.length := by rw [← hperm.length_eq]; exact hn
  have hr := hsort₁.ranked ⟨members₁, priority⟩ hnames
  have hp := hsort₁.perm ⟨members₁, priority⟩
  simp only at hr hp
  rw [getMachinesToDeletePrioritized_eq_of_ranked sortSort₁ hsort₁ members₁ _ priority n
      hnames h0 hn hp hr,
    getMachinesToDeletePrioritized_eq_of_ranked sortSort₂ hsort₂ members₂ _ priority n
      hnames₂ h0 hn₂ (hp.trans hperm) hr]
  exact ⟨rfl, rfl⟩

/-- C13, at concrete inputs: the members A, B, C, D in this order and in the reverse
order, with `n = 2`. -/
theorem getMachinesToDeletePrioritized_order_independent_witness :
    SortContract (@insertionSort ℚ _) ∧
    [exampleA, exampleB, exampleC, exampleD].Perm [exampleD, exampleC, exampleB, exampleA] ∧
    [exampleA, exampleB, exampleC, exampleD].Pairwise (fun a b => a.Name ≠ b.Name) ∧
    (0 : Int) < 2 ∧
    (2 : Int) < (([exampleA, exampleB, exampleC, exampleD] : List Machine).length : Int) ∧
    (getMachinesToDeletePrioritized insertionSort
        [exampleA, exampleB, exampleC, exampleD] 2 (@randomDeletePolicy ℚ _)).result
      = (getMachinesToDeletePrioritized insertionSort
        [exampleD, exampleC, exampleB, exampleA] 2 (@randomDeletePolicy ℚ _)).result :=
  ⟨insertionSort_contract, by decide, by decide, by decide, by decide,
    (getMachinesToDeletePrioritized_order_independent insertionSort insertionSort
      insertionSort_contract insertionSort_contract
      [exampleA, exampleB, exampleC, exampleD] [exampleD, exampleC, exampleB, exampleA]
      (by decide) (by decide) randomDeletePolicy 2 (by decide) (by decide)).1⟩

/-- C14, as stated, fails for `n ≥ len(members)`: the members A, B, C, D with `n = 4` and
`randomDeletePolicy` are returned in the order of the input, where A, of priority 20,
stands before B, of priority 50. -/
theorem getMachinesToDeletePrioritized_returns_input_unsorted :
    (getMachinesToDeletePrioritized insertionSort
        [exampleA, exampleB, exampleC, exampleD] 4 (@randomDeletePolicy ℚ _)).result
      = [exampleA, exampleB, exampleC, exampleD] ∧
    (@randomDeletePolicy ℚ _ exampleA) < @randomDeletePolicy ℚ _ exampleB := by
  decide

/-- C14, amended: for every member list, every priority function and every count `n` with
`0 < n < len(members)`, the sequence returned is ordered by priority descending, and two
returned members of equal priority stand in ascending name order, whatever the order of the
input.  For `n ≤ 0` the result is empty.  For `n ≥ len(members)` the result is the input in
its input order. -/
theorem getMachinesToDeletePrioritized_rank_order
    (sortSort : sortableMachines α → sortableMachines α) (hsort : SortContract sortSort)
    (members : List Machine) (priority : Machine → α) (n : Int) :
    (0 < n → n < (members.length : Int) →
      (getMachinesToDeletePrioritized sortSort members n priority).result.Pairwise
        (fun a b => priority b ≤ priority a ∧
          (priority a = priority b → a.Name ≤ b.Name))) ∧
    (n ≤ 0 → (getMachinesToDeletePrioritized sortSort members n priority).result = []) ∧
    ((members.length : Int) ≤ n →
      (getMachinesToDeletePrioritized sortSort members n priority).result = members) := by
  refine ⟨fun h0 hn => ?_, fun hn => ?_, fun hn => ?_⟩
  · rw [getMachinesToDeletePrioritized_sort sortSort members priority n h0 hn]
    have hpw := hsort.pairwise ⟨members, priority⟩
    simp only at hpw ⊢
    refine (hpw.sublist (List.take_sublist _ _)).imp ?_
    intro a b hab
    unfold mayPrecede ranksBefore at hab
    push_neg at hab
    exact ⟨hab.1, fun h => hab.2 h.symm⟩
  · unfold getMachinesToDeletePrioritized
    by_cases hlen : n ≥ (members.length : Int)
    · rw [if_pos hlen]
      have h0 : members.length = 0 := by omega
      exact List.eq_nil_of_length_eq_zero h0
    · rw [if_neg hlen, if_pos hn]
  · unfold getMachinesToDeletePrioritized
    rw [if_pos hn]

/-- C14, amended, at a concrete input: the members D, C, B, A with `n = 3`. -/
theorem getMachinesToDeletePrioritized_rank_order_witness :
    SortContract (@insertionSort ℚ _) ∧ (0 : Int) < 3 ∧
    (3 : Int) < (([exampleD, exampleC, exampleB, exampleA] : List Machine).length : Int) ∧
    (getMachinesToDeletePrioritized insertionSort
        [exampleD, exampleC, exampleB, exampleA] 3 (@randomDeletePolicy ℚ _)).result.Pairwise
      (fun a b => @randomDeletePolicy ℚ _ b ≤ @randomDeletePolicy ℚ _ a ∧
        (@randomDeletePolicy ℚ _ a = @randomDeletePolicy ℚ _ b → a.Name ≤ b.Name)) :=
  ⟨insertionSort_contract, by decide, by decide,
    (getMachinesToDeletePrioritized_rank_order insertionSort insertionSort_contract
      [exampleD, exampleC, exampleB, exampleA] randomDeletePolicy 3).1
      (by decide) (by decide)⟩

end SelectorTheorems

/-! ## The priority functions -/

section PriorityTheorems

variable {α : Type} [LinearOrderedField α]

/-- C2: the three priority functions share the cascade of leading checks, and the first
check that matches decides the score.  A member with an active deletion request scores
100 whatever its marker, health or age; otherwise a member with the forced-deletion marker
scores 75 whatever its health or age; otherwise an unhealthy member scores 50.  So the
three functions agree on every member that is not healthy, unmarked and free of a deletion
request all at once. -/
theorem priority_tier_cascade (exp : α → α) (now : Time) (m : Machine) :
    (IsZero m.DeletionTimestamp = false →
      oldestDeletePriority exp now m = 100 ∧ newestDeletePriority exp now m = 100 ∧
      randomDeletePolicy m = (100 : α)) ∧
    (IsZero m.DeletionTimestamp = true →
      (m.ObjectMeta.Annotations.lookup DeleteMachineAnnotation).isSome = true →
      oldestDeletePriority exp now m = 75 ∧ newestDeletePriority exp now m = 75 ∧
      randomDeletePolicy m = (75 : α)) ∧
    (IsZero m.DeletionTimestamp = true →
      (m.ObjectMeta.Annotations.lookup DeleteMachineAnnotation).isSome = false →
      isMachineHealthy m = false →
      oldestDeletePriority exp now m = 50 ∧ newestDeletePriority exp now m = 50 ∧
      randomDeletePolicy m = (50 : α)) ∧
    (¬ (isMachineHealthy m = true ∧
        (m.ObjectMeta.Annotations.lookup DeleteMachineAnnotation).isSome = false ∧
        IsZero m.DeletionTimestamp = true) →
      oldestDeletePriority exp now m = newestDeletePriority exp now m ∧
      newestDeletePriority exp now m = randomDeletePolicy m) := by
  unfold oldestDeletePriority newestDeletePriority randomDeletePolicy
    mustDelete shouldDelete betterDelete
  refine ⟨?_, ?_, ?_, ?_⟩
  · intro hd
    simp [hd]
  · intro hd ha
    simp [hd, ha]
  · intro hd ha hh
    simp [hd, ha, hh]
  · intro h
    cases hd : IsZero m.DeletionTimestamp
    · simp
    · cases ha : (m.ObjectMeta.Annotations.lookup DeleteMachineAnnotation).isSome
      · cases hh : isMachineHealthy m
        · simp [ha]
        · exact absurd ⟨hh, ha, hd⟩ h
      · simp [ha]

/-- C2, at concrete inputs: member E has an active deletion request, member C carries the
marker, member B is unhealthy, and the three of them fall outside the healthy, unmarked,
undeleted case. -/
theorem priority_tier_cascade_witness :
    (oldestDeletePriority Real.exp exampleNow exampleE = 100 ∧
      newestDeletePriority Real.exp exampleNow exampleE = 100 ∧
      randomDeletePolicy exampleE = (100 : ℝ)) ∧
    (oldestDeletePriority Real.exp exampleNow exampleC = 75 ∧
      newestDeletePriority Real.exp exampleNow exampleC = 75 ∧
      randomDeletePolicy exampleC = (75 : ℝ)) ∧
    (oldestDeletePriority Real.exp exampleNow exampleB = 50 ∧
      newestDeletePriority Real.exp exampleNow exampleB = 50 ∧
      randomDeletePolicy exampleB = (50 : ℝ)) ∧
    (oldestDeletePriority Real.exp exampleNow exampleB
        = newestDeletePriority Real.exp exampleNow exampleB ∧
      newestDeletePriority Real.exp exampleNow exampleB = randomDeletePolicy exampleB) :=
  ⟨(priority_tier_cascade Real.exp exampleNow exampleE).1 (by decide),
    (priority_tier_cascade Real.exp exampleNow exampleC).2.1 (by decide) (by decide),
    (priority_tier_cascade Real.exp exampleNow exampleB).2.2.1 (by decide) (by decide)
      (by decide),
    (priority_tier_cascade Real.exp exampleNow exampleB).2.2.2 (by decide)⟩

/-- A member with an active deletion request scores 100 under each function. -/
theorem priority_of_deletion_request (exp : α → α) (now : Time) (m : Machine)
    (hdel : IsZero m.DeletionTimestamp = false) :
    oldestDeletePriority exp now m = 100 ∧ newestDeletePriority exp now m = 100 ∧
    randomDeletePolicy m = (100 : α) := by
  unfold oldestDeletePriority newestDeletePriority randomDeletePolicy mustDelete
  simp [hdel]

/-- A member with the marker and no deletion request scores 75 under each function. -/
theorem priority_of_marker (exp : α → α) (now : Time) (m : Machine)
    (hdel : IsZero m.DeletionTimestamp = true)
    (hmark : (m.ObjectMeta.Annotations.lookup DeleteMachineAnnotation).isSome = true) :
    oldestDeletePriority exp now m = 75 ∧ newestDeletePriority exp now m = 75 ∧
    randomDeletePolicy m = (75 : α) := by
  unfold oldestDeletePriority newestDeletePriority randomDeletePolicy shouldDelete
  simp [hdel, hmark]

/-- An unhealthy member with neither deletion request nor marker scores 50 under each
function. -/
theorem priority_of_unhealthy (exp : α → α) (now : Time) (m : Machine)
    (hdel : IsZero m.DeletionTimestamp = true)
    (hmark : (m.ObjectMeta.Annotations.lookup DeleteMachineAnnotation).isSome = false)
    (hh : isMachineHealthy m = false) :
    oldestDeletePriority exp now m = 50 ∧ newestDeletePriority exp now m = 50 ∧
    randomDeletePolicy m = (50 : α) := by
  unfold oldestDeletePriority newestDeletePriority randomDeletePolicy betterDelete
  simp [hdel, hmark, hh]

/-- The scores of Newest and Random on a healthy member with neither deletion request nor
marker. -/
theorem priority_of_healthy (exp : α → α) (now : Time) (m : Machine)
    (hdel : IsZero m.DeletionTimestamp = true)
    (hmark : (m.ObjectMeta.Annotations.lookup DeleteMachineAnnotation).isSome = false)
    (hh : isMachineHealthy m = true) :
    newestDeletePriority exp now m = 50 - oldestDeletePriority exp now m ∧
    randomDeletePolicy m = (20 : α) := by
  constructor
  · rw [newestDeletePriority]
    simp [hdel, hmark, hh, betterDelete]
  · unfold randomDeletePolicy couldDelete
    simp [hdel, hmark, hh]

/-- C12: Newest is the complement of Oldest.  For every healthy member with no active
deletion request and no forced-deletion marker, scored at the same current time,
`newestDeletePriority` is 50 minus `oldestDeletePriority`, so the two scores add up to
50. -/
theorem newestDeletePriority_complement (exp : α → α) (now : Time) (m : Machine)
    (hdel : IsZero m.DeletionTimestamp = true)
    (hmark : (m.ObjectMeta.Annotations.lookup DeleteMachineAnnotation).isSome = false)
    (hh : isMachineHealthy m = true) :
    newestDeletePriority exp now m = 50 - oldestDeletePriority exp now m ∧
    oldestDeletePriority exp now m + newestDeletePriority exp now m = 50 := by
  have h := (priority_of_healthy exp now m hdel hmark hh).1
  refine ⟨h, ?_⟩
  rw [h]
  ring

/-- C12, at a concrete input: member A, healthy and 20 days old. -/
theorem newestDeletePriority_complement_witness :
    IsZero exampleA.DeletionTimestamp = true ∧
    (exampleA.ObjectMeta.Annotations.lookup DeleteMachineAnnotation).isSome = false ∧
    isMachineHealthy exampleA = true ∧
    newestDeletePriority Real.exp exampleNow exampleA
      = 50 - oldestDeletePriority Real.exp exampleNow exampleA ∧
    oldestDeletePriority Real.exp exampleNow exampleA
      + newestDeletePriority Real.exp exampleNow exampleA = 50 :=
  ⟨by decide, by decide, by decide,
    newestDeletePriority_complement Real.exp exampleNow exampleA (by decide) (by decide)
      (by decide)⟩

/-- C17, as stated, fails: member F is unhealthy and has an active deletion request, and
scores 100 under each of the three policies. -/
theorem unhealthy_deleting_scores_hundred :
    isMachineHealthy exampleF = false ∧
    oldestDeletePriority Real.exp exampleNow exampleF = 100 ∧
    newestDeletePriority Real.exp exampleNow exampleF = 100 ∧
    randomDeletePolicy exampleF = (100 : ℝ) ∧ (100 : ℝ) ≠ 50 :=
  ⟨by decide, (priority_of_deletion_request Real.exp exampleNow exampleF (by decide)).1,
    (priority_of_deletion_request Real.exp exampleNow exampleF (by decide)).2.1,
    (priority_of_deletion_request Real.exp exampleNow exampleF (by decide)).2.2,
    by norm_num⟩

/-- C17, amended: for every unhealthy member that has neither an active deletion request
nor the forced-deletion marker, the priority is exactly 50 under each of the three
policies. -/
theorem unhealthy_scores_fifty (exp : α → α) (now : Time) (m : Machine)
    (hh : isMachineHealthy m = false)
    (hdel : IsZero m.DeletionTimestamp = true)
    (hmark : (m.ObjectMeta.Annotations.lookup DeleteMachineAnnotation).isSome = false) :
    oldestDeletePriority exp now m = 50 ∧ newestDeletePriority exp now m = 50 ∧
    randomDeletePolicy m = (50 : α) := by
  unfold oldestDeletePriority newestDeletePriority randomDeletePolicy betterDelete
  rw [hdel, hmark, hh]
  simp

/-- C17, amended, at a concrete input: member B, which has no node binding. -/
theorem unhealthy_scores_fifty_witness :
    isMachineHealthy exampleB = false ∧ IsZero exampleB.DeletionTimestamp = true ∧
    (exampleB.ObjectMeta.Annotations.lookup DeleteMachineAnnotation).isSome = false ∧
    oldestDeletePriority Real.exp exampleNow exampleB = 50 ∧
    newestDeletePriority Real.exp exampleNow exampleB = 50 ∧
    randomDeletePolicy exampleB = (50 : ℝ) :=
  ⟨by decide, by decide, by decide,
    unhealthy_scores_fifty Real.exp exampleNow exampleB (by decide) (by decide)
      (by decide)⟩

/-- A duration is negative exactly when its number of seconds is. -/
theorem Seconds_neg_iff (d : Int) : (Duration.Seconds d : α) < 0 ↔ d < 0 := by
  unfold Duration.Seconds
  rw [div_lt_iff₀ (by norm_num : (0 : α) < 1000000000), zero_mul]
  exact Int.cast_lt_zero

/-- The number of seconds grows with the duration. -/
theorem Seconds_mono {d e : Int} (h : d ≤ e) :
    (Duration.Seconds d : α) ≤ Duration.Seconds e := by
  unfold Duration.Seconds
  exact div_le_div_of_nonneg_right (Int.cast_le.mpr h) (by norm_num)

/-- Saturation keeps the sign of a difference of instants. -/
theorem Sub_neg_iff (t u : Time) : t.Sub u < 0 ↔ t.ns - u.ns < 0 := by
  unfold Time.Sub minDuration maxDuration
  simp only
  split_ifs <;> omega

/-- A difference of instants that is not negative is cut off at the largest duration. -/
theorem Sub_of_nonneg (t u : Time) (h : 0 ≤ t.ns - u.ns) :
    t.Sub u = min (t.ns - u.ns) maxDuration := by
  unfold Time.Sub minDuration maxDuration
  simp only
  split_ifs <;> omega

/-- The later the instant subtracted, the smaller the duration. -/
theorem Sub_mono (t u v : Time) (h : t.ns - u.ns ≤ t.ns - v.ns) : t.Sub u ≤ t.Sub v := by
  unfold Time.Sub minDuration maxDuration
  simp only
  split_ifs <;> omega

/-- The score `oldestDeletePriority` gives to a healthy member without deletion request
and without marker. -/
theorem oldestDeletePriority_of_healthy (exp : α → α) (now : Time) (m : Machine)
    (hdel : IsZero m.DeletionTimestamp = true)
    (hmark : (m.ObjectMeta.Annotations.lookup DeleteMachineAnnotation).isSome = false)
    (hh : isMachineHealthy m = true) :
    oldestDeletePriority exp now m =
      if m.ObjectMeta.CreationTimestamp.IsZero = true then 0
      else if now.Sub m.ObjectMeta.CreationTimestamp < 0 then 0
      else 50 * (1 - exp (-(Duration.Seconds (now.Sub m.ObjectMeta.CreationTimestamp))
        / 864000)) := by
  unfold oldestDeletePriority mustNotDelete betterDelete secondsPerTenDays
  simp only [hdel, hmark, hh, Bool.not_true, Bool.false_eq_true, if_false, Seconds_neg_iff]

/-- C9: for a healthy member with no active deletion request and no forced-deletion
marker, scored at the current time `now`, `oldestDeletePriority` returns 0 when the
creation time is unset or the age `now - creation` is negative, and otherwise
`50 * (1 - exp (-ageSeconds / 864000))`, where `ageSeconds` is the age in seconds as the
code has it, `now.Sub(creation).Seconds()`: the age itself divided by `10^9` nanoseconds
whenever the age fits a `time.Duration`. -/
theorem oldestDeletePriority_formula (exp : α → α) (now : Time) (m : Machine)
    (hdel : IsZero m.DeletionTimestamp = true)
    (hmark : (m.ObjectMeta.Annotations.lookup DeleteMachineAnnotation).isSome = false)
    (hh : isMachineHealthy m = true) :
    (m.ObjectMeta.CreationTimestamp.IsZero = true → oldestDeletePriority exp now m = 0) ∧
    (now.ns - m.ObjectMeta.CreationTimestamp.ns < 0 → oldestDeletePriority exp now m = 0) ∧
    (m.ObjectMeta.CreationTimestamp.IsZero = false →
      0 ≤ now.ns - m.ObjectMeta.CreationTimestamp.ns →
      oldestDeletePriority exp now m
        = 50 * (1 - exp (-(Duration.Seconds (now.Sub m.ObjectMeta.CreationTimestamp))
            / 864000)) ∧
      now.Sub m.ObjectMeta.CreationTimestamp
        = min (now.ns - m.ObjectMeta.CreationTimestamp.ns) 9223372036854775807 ∧
      (now.ns - m.ObjectMeta.CreationTimestamp.ns ≤ 9223372036854775807 →
        (Duration.Seconds (now.Sub m.ObjectMeta.CreationTimestamp) : α)
          = ((now.ns - m.ObjectMeta.CreationTimestamp.ns : Int) : α) / 1000000000)) := by
  rw [oldestDeletePriority_of_healthy exp now m hdel hmark hh]
  refine ⟨fun hz => by rw [if_pos hz], fun hneg => ?_, fun hz hage => ⟨?_, ?_, ?_⟩⟩
  · split
    · rfl
    · rw [if_pos ((Sub_neg_iff _ _).mpr hneg)]
  · rw [if_neg (by simp [hz]), if_neg (by rw [Sub_neg_iff]; omega)]
  · exact Sub_of_nonneg _ _ hage
  · intro hfit
    rw [Sub_of_nonneg _ _ hage, maxDuration, min_eq_left hfit]
    rfl

/-- C9, at a concrete input: member A, healthy and 20 days old. -/
theorem oldestDeletePriority_formula_witness :
    IsZero exampleA.DeletionTimestamp = true ∧
    (exampleA.ObjectMeta.Annotations.lookup DeleteMachineAnnotation).isSome = false ∧
    isMachineHealthy exampleA = true ∧
    exampleA.ObjectMeta.CreationTimestamp.IsZero = false ∧
    0 ≤ exampleNow.ns - exampleA.ObjectMeta.CreationTimestamp.ns ∧
    oldestDeletePriority Real.exp exampleNow exampleA
      = 50 * (1 - Real.exp (-(Duration.Seconds
          (exampleNow.Sub exampleA.ObjectMeta.CreationTimestamp)) / 864000)) :=
  ⟨by decide, by decide, by decide, by decide, by decide,
    ((oldestDeletePriority_formula Real.exp exampleNow exampleA (by decide) (by decide)
      (by decide)).2.2 (by decide) (by decide)).1⟩

/-- C20: Random is alphabetical selection.  `randomDeletePolicy` gives every healthy member
with no active deletion request and no forced-deletion marker the score 20, whatever its
creation time; the current time is not an argument of the function.  So for every list of
such members with pairwise distinct names and every `n` with `0 < n < len(members)`, the
selector with `randomDeletePolicy` returns the `n` members with the smallest names, in
ascending name order. -/
theorem randomDeletePolicy_alphabetical
    (sortSort : sortableMachines α → sortableMachines α) (hsort : SortContract sortSort)
    (members : List Machine) (n : Int)
    (hall : ∀ m ∈ members, IsZero m.DeletionTimestamp = true ∧
      (m.ObjectMeta.Annotations.lookup DeleteMachineAnnotation).isSome = false ∧
      isMachineHealthy m = true)
    (hnames : members.Pairwise (fun a b => a.Name ≠ b.Name))
    (h0 : 0 < n) (hn : n < members.length) :
    (∀ m : Machine, IsZero m.DeletionTimestamp = true →
      (m.ObjectMeta.Annotations.lookup DeleteMachineAnnotation).isSome = false →
      isMachineHealthy m = true → randomDeletePolicy m = (20 : α)) ∧
    ∃ byName : List Machine,
      byName.Perm members ∧ byName.Pairwise (fun a b => a.Name < b.Name) ∧
      (getMachinesToDeletePrioritized sortSort members n
        (@randomDeletePolicy α _)).result = byName.take n.toNat ∧
      ((getMachinesToDeletePrioritized sortSort members n
        (@randomDeletePolicy α _)).result.length : Int) = n ∧
      (∀ s ∈ (getMachinesToDeletePrioritized sortSort members n
          (@randomDeletePolicy α _)).result,
        ∀ u ∈ members,
          u ∉ (getMachinesToDeletePrioritized sortSort members n
            (@randomDeletePolicy α _)).result → s.Name < u.Name) := by
  have hflat : ∀ m : Machine, IsZero m.DeletionTimestamp = true →
      (m.ObjectMeta.Annotations.lookup DeleteMachineAnnotation).isSome = false →
      isMachineHealthy m = true → randomDeletePolicy m = (20 : α) := by
    intro m hdel hmark hh
    unfold randomDeletePolicy couldDelete
    simp [hdel, hmark, hh]
  refine ⟨hflat, ?_⟩
  have hperm := hsort.perm ⟨members, @randomDeletePolicy α _⟩
  have hranked := hsort.ranked ⟨members, @randomDeletePolicy α _⟩ hnames
  rw [getMachinesToDeletePrioritized_sort sortSort members _ n h0 hn]
  simp only at hperm hranked ⊢
  generalize (sortSort ⟨members, @randomDeletePolicy α _⟩).machines = sorted
    at hperm hranked
  have h20 : ∀ m ∈ sorted, randomDeletePolicy m = (20 : α) := fun m hm =>
    hflat m (hall m (hperm.subset hm)).1 (hall m (hperm.subset hm)).2.1
      (hall m (hperm.subset hm)).2.2
  have hbyName : sorted.Pairwise (fun a b => a.Name < b.Name) := by
    refine hranked.imp_of_mem ?_
    intro a b ha hb hab
    rcases hab with h | ⟨-, h⟩
    · rw [h20 a ha, h20 b hb] at h
      exact absurd h (lt_irrefl _)
    · exact h
  have hsplit : sorted.take n.toNat ++ sorted.drop n.toNat = sorted :=
    List.take_append_drop _ _
  refine ⟨sorted, hperm, hbyName, rfl, ?_, ?_⟩
  · rw [List.length_take, hperm.length_eq]
    omega
  · intro s hs u hu hnot
    have hur : u ∈ sorted := hperm.symm.subset hu
    rw [← hsplit] at hur hbyName
    rcases List.mem_append.mp hur with h | h
    · exact absurd h hnot
    · exact (List.pairwise_append.mp hbyName).2.2 s hs u h

/-- C20, at a concrete input: the healthy members Z, D, X, A, Y with `n = 2`, of which A
and D are returned. -/
theorem randomDeletePolicy_alphabetical_witness :
    SortContract (@insertionSort ℚ _) ∧
    [exampleZ, exampleD, exampleX, exampleA, exampleY].Pairwise
      (fun a b => a.Name ≠ b.Name) ∧
    (0 : Int) < 2 ∧
    (2 : Int) < (([exampleZ, exampleD, exampleX, exampleA, exampleY] :
      List Machine).length : Int) ∧
    (getMachinesToDeletePrioritized insertionSort
        [exampleZ, exampleD, exampleX, exampleA, exampleY] 2
        (@randomDeletePolicy ℚ _)).result = [exampleA, exampleD] ∧
    ∃ byName : List Machine,
      byName.Perm [exampleZ, exampleD, exampleX, exampleA, exampleY] ∧
      byName.Pairwise (fun a b => a.Name < b.Name) ∧
      (getMachinesToDeletePrioritized insertionSort
        [exampleZ, exampleD, exampleX, exampleA, exampleY] 2
        (@randomDeletePolicy ℚ _)).result = byName.take (2 : Int).toNat :=
  ⟨insertionSort_contract, by decide, by decide, by decide, by decide,
    (randomDeletePolicy_alphabetical insertionSort insertionSort_contract
      [exampleZ, exampleD, exampleX, exampleA, exampleY] 2 (by decide) (by decide)
      (by decide) (by decide)).2.imp
      (fun _ h => ⟨h.1, h.2.1, h.2.2.1⟩)⟩

end PriorityTheorems

/-! ## The priority functions over the real numbers -/

section RealPriority

/-- The age term of the Oldest score lies between 0 and 50 when the age is not
negative. -/
theorem oldest_term_bounds (d : Int) (hd : ¬ d < 0) :
    0 ≤ 50 * (1 - Real.exp (-(Duration.Seconds d) / 864000)) ∧
    50 * (1 - Real.exp (-(Duration.Seconds d) / 864000)) < 50 := by
  have hs : (0 : ℝ) ≤ Duration.Seconds d := by
    have := (@Seconds_neg_iff ℝ _ d).not.mpr hd
    exact not_lt.mp this
  have hle : Real.exp (-(Duration.Seconds d) / 864000) ≤ 1 := by
    rw [Real.exp_le_one_iff]
    have : (0 : ℝ) ≤ Duration.Seconds d / 864000 := div_nonneg hs (by norm_num)
    rw [neg_div]
    linarith
  have hpos := Real.exp_pos (-(Duration.Seconds d) / 864000)
  constructor <;> nlinarith

/-- The age term of the Oldest score grows with the age. -/
theorem oldest_term_mono {d e : Int} (h : d ≤ e) :
    50 * (1 - Real.exp (-(Duration.Seconds d) / 864000))
      ≤ 50 * (1 - Real.exp (-(Duration.Seconds e) / 864000)) := by
  have hs : (Duration.Seconds d : ℝ) ≤ Duration.Seconds e := Seconds_mono h
  have hexp : Real.exp (-(Duration.Seconds e) / 864000)
      ≤ Real.exp (-(Duration.Seconds d) / 864000) := by
    rw [Real.exp_le_exp]
    have : (Duration.Seconds d : ℝ) / 864000 ≤ Duration.Seconds e / 864000 :=
      div_le_div_of_nonneg_right hs (by norm_num)
    rw [neg_div, neg_div]
    linarith
  linarith

/-- The Oldest score of a healthy member without deletion request and without marker
lies between 0 and 50, and in exact arithmetic it stays below 50. -/
theorem oldestDeletePriority_healthy_bounds (now : Time) (m : Machine)
    (hdel : IsZero m.DeletionTimestamp = true)
    (hmark : (m.ObjectMeta.Annotations.lookup DeleteMachineAnnotation).isSome = false)
    (hh : isMachineHealthy m = true) :
    0 ≤ oldestDeletePriority Real.exp now m ∧ oldestDeletePriority Real.exp now m < 50 := by
  rw [oldestDeletePriority_of_healthy Real.exp now m hdel hmark hh]
  split
  · exact ⟨le_refl _, by norm_num⟩
  · split
    · exact ⟨le_refl _, by norm_num⟩
    · next hneg => exact oldest_term_bounds _ hneg

/-- The age term of the Oldest score grows strictly with the age. -/
theorem oldest_term_lt {d e : Int} (h : d < e) :
    50 * (1 - Real.exp (-(Duration.Seconds d) / 864000))
      < 50 * (1 - Real.exp (-(Duration.Seconds e) / 864000)) := by
  have hs : (Duration.Seconds d : ℝ) < Duration.Seconds e := by
    unfold Duration.Seconds
    exact div_lt_div_of_pos_right (Int.cast_lt.mpr h) (by norm_num)
  have hexp : Real.exp (-(Duration.Seconds e) / 864000)
      < Real.exp (-(Duration.Seconds d) / 864000) := by
    rw [Real.exp_lt_exp]
    have : (Duration.Seconds d : ℝ) / 864000 < Duration.Seconds e / 864000 :=
      div_lt_div_of_pos_right hs (by norm_num)
    rw [neg_div, neg_div]
    linarith
  linarith

/-- A member with neither deletion request nor marker scores at most 50 under each
function. -/
theorem priority_unmarked_le (now : Time) (m : Machine)
    (hdel : IsZero m.DeletionTimestamp = true)
    (hmark : (m.ObjectMeta.Annotations.lookup DeleteMachineAnnotation).isSome = false) :
    oldestDeletePriority Real.exp now m ≤ 50 ∧ newestDeletePriority Real.exp now m ≤ 50 ∧
    randomDeletePolicy m ≤ (50 : ℝ) := by
  cases hh : isMachineHealthy m
  · obtain ⟨h1, h2, h3⟩ := priority_of_unhealthy Real.exp now m hdel hmark hh
    rw [h1, h2, h3]
    exact ⟨le_refl _, le_refl _, le_refl _⟩
  · obtain ⟨h2, h3⟩ := priority_of_healthy Real.exp now m hdel hmark hh
    obtain ⟨hlo, hhi⟩ := oldestDeletePriority_healthy_bounds now m hdel hmark hh
    rw [h2, h3]
    exact ⟨le_of_lt hhi, by linarith, by norm_num⟩

/-- Under each of the three policies a member of a higher mark tier scores strictly
higher. -/
theorem priority_lt_of_markTier_lt (now : Time) (priority : Machine → ℝ)
    (hp : priority = oldestDeletePriority Real.exp now ∨
      priority = newestDeletePriority Real.exp now ∨ priority = randomDeletePolicy)
    (s u : Machine) (h : markTier s < markTier u) : priority s < priority u := by
  unfold markTier at h
  cases hdu : IsZero u.DeletionTimestamp
  · -- `u` has an active deletion request
    obtain ⟨u1, u2, u3⟩ := priority_of_deletion_request Real.exp now u hdu
    cases hds : IsZero s.DeletionTimestamp
    · simp [hdu, hds] at h
    · cases hms : (s.ObjectMeta.Annotations.lookup DeleteMachineAnnotation).isSome
      · obtain ⟨s1, s2, s3⟩ := priority_unmarked_le now s hds hms
        rcases hp with rfl | rfl | rfl
        · rw [u1]; linarith
        · rw [u2]; linarith
        · rw [u3]; linarith
      · obtain ⟨s1, s2, s3⟩ := priority_of_marker Real.exp now s hds hms
        rcases hp with rfl | rfl | rfl
        · rw [u1, s1]; norm_num
        · rw [u2, s2]; norm_num
        · rw [u3, s3]; norm_num
  · cases hmu : (u.ObjectMeta.Annotations.lookup DeleteMachineAnnotation).isSome
    · simp [hdu, hmu] at h
    · obtain ⟨u1, u2, u3⟩ := priority_of_marker Real.exp now u hdu hmu
      cases hds : IsZero s.DeletionTimestamp
      · simp [hdu, hmu, hds] at h
      · cases hms : (s.ObjectMeta.Annotations.lookup DeleteMachineAnnotation).isSome
        · obtain ⟨s1, s2, s3⟩ := priority_unmarked_le now s hds hms
          rcases hp with rfl | rfl | rfl
          · rw [u1]; linarith
          · rw [u2]; linarith
          · rw [u3]; linarith
        · simp [hdu, hmu, hds, hms] at h

/-- C10: the Oldest score does not decrease with the age.  For two healthy members with
no active deletion request and no forced-deletion marker, both with a creation time set
and scored at the same current time, the member whose age is smaller or equal has the
smaller or equal `oldestDeletePriority`; a negative age, which scores 0, is allowed on
either side. -/
theorem oldestDeletePriority_monotone (now : Time) (m₁ m₂ : Machine)
    (hdel₁ : IsZero m₁.DeletionTimestamp = true)
    (hmark₁ : (m₁.ObjectMeta.Annotations.lookup DeleteMachineAnnotation).isSome = false)
    (hh₁ : isMachineHealthy m₁ = true)
    (hdel₂ : IsZero m₂.DeletionTimestamp = true)
    (hmark₂ : (m₂.ObjectMeta.Annotations.lookup DeleteMachineAnnotation).isSome = false)
    (hh₂ : isMachineHealthy m₂ = true)
    (hset₁ : m₁.ObjectMeta.CreationTimestamp.IsZero = false)
    (hset₂ : m₂.ObjectMeta.CreationTimestamp.IsZero = false)
    (hage : now.ns - m₁.ObjectMeta.CreationTimestamp.ns
      ≤ now.ns - m₂.ObjectMeta.CreationTimestamp.ns) :
    oldestDeletePriority Real.exp now m₁ ≤ oldestDeletePriority Real.exp now m₂ := by
  have hsub := Sub_mono now _ _ hage
  by_cases hneg : now.Sub m₁.ObjectMeta.CreationTimestamp < 0
  · have h0 : oldestDeletePriority Real.exp now m₁ = 0 := by
      rw [oldestDeletePriority_of_healthy Real.exp now m₁ hdel₁ hmark₁ hh₁,
        if_neg (by simp [hset₁]), if_pos hneg]
    rw [h0]
    exact (oldestDeletePriority_healthy_bounds now m₂ hdel₂ hmark₂ hh₂).1
  · have hneg₂ : ¬ now.Sub m₂.ObjectMeta.CreationTimestamp < 0 := by omega
    rw [oldestDeletePriority_of_healthy Real.exp now m₁ hdel₁ hmark₁ hh₁,
      oldestDeletePriority_of_healthy Real.exp now m₂ hdel₂ hmark₂ hh₂,
      if_neg (by simp [hset₁]), if_neg hneg, if_neg (by simp [hset₂]), if_neg hneg₂]
    exact oldest_term_mono hsub

/-- C10, at concrete inputs: member D, 1 day old, against member A, 20 days old. -/
theorem oldestDeletePriority_monotone_witness :
    (exampleNow.ns - exampleD.ObjectMeta.CreationTimestamp.ns
      ≤ exampleNow.ns - exampleA.ObjectMeta.CreationTimestamp.ns) ∧
    oldestDeletePriority Real.exp exampleNow exampleD
      ≤ oldestDeletePriority Real.exp exampleNow exampleA :=
  ⟨by decide,
    oldestDeletePriority_monotone exampleNow exampleD exampleA (by decide) (by decide)
      (by decide) (by decide) (by decide) (by decide) (by decide) (by decide) (by decide)⟩

/-- The Oldest scores of the members of the end-to-end example: C scores 75, B scores 50,
A scores less than 50 and D scores less than A. -/
theorem example_oldest_scores :
    oldestDeletePriority Real.exp exampleNow exampleC = 75 ∧
    oldestDeletePriority Real.exp exampleNow exampleB = 50 ∧
    oldestDeletePriority Real.exp exampleNow exampleA < 50 ∧
    oldestDeletePriority Real.exp exampleNow exampleD
      < oldestDeletePriority Real.exp exampleNow exampleA := by
  refine ⟨(priority_of_marker Real.exp exampleNow exampleC (by decide) (by decide)).1,
    (priority_of_unhealthy Real.exp exampleNow exampleB (by decide) (by decide)
      (by decide)).1,
    (oldestDeletePriority_healthy_bounds exampleNow exampleA (by decide) (by decide)
      (by decide)).2, ?_⟩
  rw [oldestDeletePriority_of_healthy Real.exp exampleNow exampleA (by decide) (by decide)
      (by decide),
    oldestDeletePriority_of_healthy Real.exp exampleNow exampleD (by decide) (by decide)
      (by decide),
    if_neg (by decide), if_neg (by decide), if_neg (by decide), if_neg (by decide)]
  exact oldest_term_lt (by decide)

/-- The end-to-end example under Oldest: from A, B, C, D with `n = 2` the selector returns
C and then B, and leaves the slice of the caller as C, B, A, D. -/
theorem example_oldest_selection :
    getMachinesToDeletePrioritized insertionSort [exampleA, exampleB, exampleC, exampleD] 2
        (oldestDeletePriority Real.exp exampleNow)
      = ⟨[exampleC, exampleB, exampleA, exampleD], [exampleC, exampleB]⟩ := by
  obtain ⟨hC, hB, hA, hD⟩ := example_oldest_scores
  have hranked : [exampleC, exampleB, exampleA, exampleD].Pairwise
      (ranksBefore (oldestDeletePriority Real.exp exampleNow)) := by
    simp only [List.pairwise_cons, List.mem_cons, List.mem_singleton, List.not_mem_nil,
      forall_eq_or_imp, forall_eq, IsEmpty.forall_iff, implies_true, List.Pairwise.nil,
      and_true]
    unfold ranksBefore
    refine ⟨⟨?_, ?_, ?_⟩, ⟨?_, ?_⟩, ?_⟩
    · left; rw [hC, hB]; norm_num
    · left; rw [hC]; linarith
    · left; rw [hC]; linarith
    · left; rw [hB]; exact hA
    · left; rw [hB]; linarith
    · left; exact hD
  exact getMachinesToDeletePrioritized_eq_of_ranked insertionSort insertionSort_contract
    [exampleA, exampleB, exampleC, exampleD] [exampleC, exampleB, exampleA, exampleD]
    (oldestDeletePriority Real.exp exampleNow) 2 (by decide) (by decide) (by decide)
    (by decide) hranked

/-- C3: marked members are chosen first.  Under each of the three policies, with the
current time fixed, for every member list and every `n` with `0 < n < len(members)`, no
selected member has a lower mark tier than a member left unselected, the tiers being:
active deletion request, above forced-deletion marker without deletion request, above
neither.  So if a member with an active deletion request is left unselected, every
selected member has an active deletion request. -/
theorem getMachinesToDeletePrioritized_marked_first
    (sortSort : sortableMachines ℝ → sortableMachines ℝ) (hsort : SortContract sortSort)
    (now : Time) (priority : Machine → ℝ)
    (hp : priority = oldestDeletePriority Real.exp now ∨
      priority = newestDeletePriority Real.exp now ∨ priority = randomDeletePolicy)
    (members : List Machine) (n : Int) (h0 : 0 < n) (hn : n < members.length)
    (rest : List Machine)
    (hrest : ((getMachinesToDeletePrioritized sortSort members n priority).result
      ++ rest).Perm members) :
    (∀ s ∈ (getMachinesToDeletePrioritized sortSort members n priority).result,
      ∀ u ∈ rest, markTier u ≤ markTier s) ∧
    ((∃ u ∈ rest, IsZero u.DeletionTimestamp = false) →
      ∀ s ∈ (getMachinesToDeletePrioritized sortSort members n priority).result,
        IsZero s.DeletionTimestamp = false) := by
  have htier : ∀ s ∈ (getMachinesToDeletePrioritized sortSort members n priority).result,
      ∀ u ∈ rest, markTier u ≤ markTier s := by
    intro s hs u hu
    by_contra hlt
    have hlt2 : priority s < priority u :=
      priority_lt_of_markTier_lt now priority hp s u (not_le.mp hlt)
    exact getMachinesToDeletePrioritized_unselected sortSort hsort members priority n h0 hn
      rest hrest s hs u hu (Or.inl hlt2)
  refine ⟨htier, ?_⟩
  rintro ⟨u, hu, hdu⟩ s hs
  have h := htier s hs u hu
  unfold markTier at h
  rw [hdu] at h
  cases hds : IsZero s.DeletionTimestamp
  · rfl
  · rw [hds] at h
    simp only [Bool.not_false, Bool.not_true, if_true, Bool.false_eq_true, if_false] at h
    split at h <;> omega

/-- C3, at the input of the end-to-end example: from the members A (healthy, 20 days),
B (unhealthy), C (forced-deletion marker) and D (healthy, 1 day), Oldest with `n = 2`
selects C first and B second, leaving A and D. -/
theorem getMachinesToDeletePrioritized_marked_first_witness :
    SortContract (@insertionSort ℝ _) ∧
    (0 : Int) < 2 ∧
    (2 : Int) < (([exampleA, exampleB, exampleC, exampleD] : List Machine).length : Int) ∧
    (getMachinesToDeletePrioritized insertionSort [exampleA, exampleB, exampleC, exampleD] 2
        (oldestDeletePriority Real.exp exampleNow)).result = [exampleC, exampleB] ∧
    (∀ s ∈ (getMachinesToDeletePrioritized insertionSort
        [exampleA, exampleB, exampleC, exampleD] 2
        (oldestDeletePriority Real.exp exampleNow)).result,
      ∀ u ∈ [exampleA, exampleD], markTier u ≤ markTier s) :=
  ⟨insertionSort_contract, by decide, by decide,
    congrArg Selection.result example_oldest_selection,
    (getMachinesToDeletePrioritized_marked_first insertionSort insertionSort_contract
      exampleNow (oldestDeletePriority Real.exp exampleNow) (Or.inl rfl)
      [exampleA, exampleB, exampleC, exampleD] 2 (by decide) (by decide)
      [exampleA, exampleD]
      (by rw [example_oldest_selection]; decide)).1⟩

/-- The age term of the Oldest score is 0 at age 0. -/
theorem oldest_term_zero :
    50 * (1 - Real.exp (-(Duration.Seconds 0) / 864000)) = 0 := by
  simp [Duration.Seconds]

/-- The age term of the Oldest score is positive at a positive age. -/
theorem oldest_term_pos {d : Int} (h : 0 < d) :
    0 < 50 * (1 - Real.exp (-(Duration.Seconds d) / 864000)) := by
  have := oldest_term_lt h
  rwa [oldest_term_zero] at this

/-- The Oldest score of a healthy member without deletion request and without marker is 0
exactly when its creation time is unset or its age is not positive. -/
theorem oldestDeletePriority_healthy_zero_or_pos (now : Time) (m : Machine)
    (hdel : IsZero m.DeletionTimestamp = true)
    (hmark : (m.ObjectMeta.Annotations.lookup DeleteMachineAnnotation).isSome = false)
    (hh : isMachineHealthy m = true) :
    (m.ObjectMeta.CreationTimestamp.IsZero = true ∨
        now.ns - m.ObjectMeta.CreationTimestamp.ns ≤ 0 →
      oldestDeletePriority Real.exp now m = 0) ∧
    (m.ObjectMeta.CreationTimestamp.IsZero = false →
      0 < now.ns - m.ObjectMeta.CreationTimestamp.ns →
      0 < oldestDeletePriority Real.exp now m) := by
  rw [oldestDeletePriority_of_healthy Real.exp now m hdel hmark hh]
  constructor
  · rintro (hz | hage)
    · rw [if_pos hz]
    · split
      · rfl
      · split
        · rfl
        · next hneg =>
          have h0 : now.Sub m.ObjectMeta.CreationTimestamp = 0 := by
            have h1 := Sub_of_nonneg now m.ObjectMeta.CreationTimestamp
              (by rw [Sub_neg_iff] at hneg; omega)
            rw [h1, maxDuration]
            rw [Sub_neg_iff] at hneg
            omega
          rw [h0]
          exact oldest_term_zero
  · intro hz hage
    rw [if_neg (by simp [hz]), if_neg (by rw [Sub_neg_iff]; omega)]
    apply oldest_term_pos
    rw [Sub_of_nonneg now m.ObjectMeta.CreationTimestamp (by omega), maxDuration]
    omega

/-- Every Oldest score is at least 0, and every Random score at least 20. -/
theorem priority_lower_bounds (now : Time) (m : Machine) :
    0 ≤ oldestDeletePriority Real.exp now m ∧ 0 ≤ newestDeletePriority Real.exp now m ∧
    (20 : ℝ) ≤ randomDeletePolicy m := by
  cases hdel : IsZero m.DeletionTimestamp
  · obtain ⟨h1, h2, h3⟩ := priority_of_deletion_request Real.exp now m hdel
    rw [h1, h2, h3]; norm_num
  · cases hmark : (m.ObjectMeta.Annotations.lookup DeleteMachineAnnotation).isSome
    · cases hh : isMachineHealthy m
      · obtain ⟨h1, h2, h3⟩ := priority_of_unhealthy Real.exp now m hdel hmark hh
        rw [h1, h2, h3]; norm_num
      · obtain ⟨h2, h3⟩ := priority_of_healthy Real.exp now m hdel hmark hh
        obtain ⟨hlo, hhi⟩ := oldestDeletePriority_healthy_bounds now m hdel hmark hh
        rw [h2, h3]
        exact ⟨hlo, by linarith, le_refl _⟩
    · obtain ⟨h1, h2, h3⟩ := priority_of_marker Real.exp now m hdel hmark
      rw [h1, h2, h3]; norm_num

/-- C18: priority is bounded.  For each of the three priority functions, every member,
whatever its deletion request, marker, health signals and creation time, and every
current time, the priority lies between 0 and 100. -/
theorem priority_bounded (now : Time) (m : Machine) :
    (0 ≤ oldestDeletePriority Real.exp now m ∧ oldestDeletePriority Real.exp now m ≤ 100) ∧
    (0 ≤ newestDeletePriority Real.exp now m ∧ newestDeletePriority Real.exp now m ≤ 100) ∧
    (0 ≤ (randomDeletePolicy m : ℝ) ∧ (randomDeletePolicy m : ℝ) ≤ 100) := by
  obtain ⟨l1, l2, l3⟩ := priority_lower_bounds now m
  refine ⟨⟨l1, ?_⟩, ⟨l2, ?_⟩, ⟨by linarith, ?_⟩⟩ <;>
  · cases hdel : IsZero m.DeletionTimestamp
    · obtain ⟨h1, h2, h3⟩ := priority_of_deletion_request Real.exp now m hdel
      first | exact le_of_eq h1 | exact le_of_eq h2 | exact le_of_eq h3
    · cases hmark : (m.ObjectMeta.Annotations.lookup DeleteMachineAnnotation).isSome
      · obtain ⟨h1, h2, h3⟩ := priority_unmarked_le now m hdel hmark
        first | linarith
      · obtain ⟨h1, h2, h3⟩ := priority_of_marker Real.exp now m hdel hmark
        first | (rw [h1]; norm_num) | (rw [h2]; norm_num) | (rw [h3]; norm_num)

/-- C15, as stated, fails under Newest: member U is healthy, has no deletion request, no
marker and no creation time, and scores 50, more than the healthy member D of age 1 day. -/
theorem newest_prefers_unset_creation_time :
    IsZero exampleUnset.DeletionTimestamp = true ∧
    (exampleUnset.ObjectMeta.Annotations.lookup DeleteMachineAnnotation).isSome = false ∧
    isMachineHealthy exampleUnset = true ∧
    exampleUnset.ObjectMeta.CreationTimestamp.IsZero = true ∧
    newestDeletePriority Real.exp exampleNow exampleUnset = 50 ∧
    newestDeletePriority Real.exp exampleNow exampleD
      < newestDeletePriority Real.exp exampleNow exampleUnset := by
  have hU := (priority_of_healthy Real.exp exampleNow exampleUnset (by decide) (by decide)
    (by decide)).1
  have hU0 := (oldestDeletePriority_healthy_zero_or_pos exampleNow exampleUnset (by decide)
    (by decide) (by decide)).1 (Or.inl (by decide))
  have hD := (priority_of_healthy Real.exp exampleNow exampleD (by decide) (by decide)
    (by decide)).1
  have hD0 := (oldestDeletePriority_healthy_zero_or_pos exampleNow exampleD (by decide)
    (by decide) (by decide)).2 (by decide) (by decide)
  rw [hU0] at hU
  refine ⟨by decide, by decide, by decide, by decide, by rw [hU]; norm_num, ?_⟩
  rw [hU, hD]
  linarith

/-- C15, amended: under Oldest and under Random, a healthy member with no active deletion
request, no forced-deletion marker and an unset creation time scores no more than any
other member, at every current time: it scores 0 under Oldest and 20 under Random.  Under
Newest it scores 50, which is no less than the score of any member without deletion
request and without marker. -/
theorem unset_creation_time_scores (now : Time) (u m : Machine)
    (hdel : IsZero u.DeletionTimestamp = true)
    (hmark : (u.ObjectMeta.Annotations.lookup DeleteMachineAnnotation).isSome = false)
    (hh : isMachineHealthy u = true)
    (hunset : u.ObjectMeta.CreationTimestamp.IsZero = true) :
    oldestDeletePriority Real.exp now u = 0 ∧
    oldestDeletePriority Real.exp now u ≤ oldestDeletePriority Real.exp now m ∧
    randomDeletePolicy u = (20 : ℝ) ∧
    (randomDeletePolicy u : ℝ) ≤ randomDeletePolicy m ∧
    newestDeletePriority Real.exp now u = 50 ∧
    (IsZero m.DeletionTimestamp = true →
      (m.ObjectMeta.Annotations.lookup DeleteMachineAnnotation).isSome = false →
      newestDeletePriority Real.exp now m ≤ newestDeletePriority Real.exp now u) := by
  have h0 := (oldestDeletePriority_healthy_zero_or_pos now u hdel hmark hh).1
    (Or.inl hunset)
  obtain ⟨hn, hr⟩ := priority_of_healthy Real.exp now u hdel hmark hh
  obtain ⟨l1, -, l3⟩ := priority_lower_bounds now m
  rw [h0] at hn
  have hn50 : newestDeletePriority Real.exp now u = 50 := by rw [hn]; norm_num
  refine ⟨h0, by rw [h0]; exact l1, hr, by rw [hr]; exact l3, hn50, ?_⟩
  intro hdm hmm
  rw [hn50]
  exact (priority_unmarked_le now m hdm hmm).2.1

/-- C15, amended, at concrete inputs: member U, without creation time, against the
healthy member D. -/
theorem unset_creation_time_scores_witness :
    IsZero exampleUnset.DeletionTimestamp = true ∧
    (exampleUnset.ObjectMeta.Annotations.lookup DeleteMachineAnnotation).isSome = false ∧
    isMachineHealthy exampleUnset = true ∧
    exampleUnset.ObjectMeta.CreationTimestamp.IsZero = true ∧
    oldestDeletePriority Real.exp exampleNow exampleUnset
      ≤ oldestDeletePriority Real.exp exampleNow exampleD ∧
    (randomDeletePolicy exampleUnset : ℝ) ≤ randomDeletePolicy exampleD :=
  ⟨by decide, by decide, by decide, by decide,
    (unset_creation_time_scores exampleNow exampleUnset exampleD (by decide) (by decide)
      (by decide) (by decide)).2.1,
    (unset_creation_time_scores exampleNow exampleUnset exampleD (by decide) (by decide)
      (by decide) (by decide)).2.2.2.1⟩

/-- C16, as stated, fails under Newest: member U is healthy, has no deletion request and
no marker, and scores 50, which is not less than 50. -/
theorem newest_healthy_reaches_fifty :
    IsZero exampleUnset.DeletionTimestamp = true ∧
    (exampleUnset.ObjectMeta.Annotations.lookup DeleteMachineAnnotation).isSome = false ∧
    isMachineHealthy exampleUnset = true ∧
    ¬ newestDeletePriority Real.exp exampleNow exampleUnset < 50 := by
  have hU := (priority_of_healthy Real.exp exampleNow exampleUnset (by decide) (by decide)
    (by decide)).1
  have hU0 := (oldestDeletePriority_healthy_zero_or_pos exampleNow exampleUnset (by decide)
    (by decide) (by decide)).1 (Or.inl (by decide))
  rw [hU0] at hU
  refine ⟨by decide, by decide, by decide, ?_⟩
  rw [hU]
  norm_num

/-- C16, amended: at every current time a healthy member with no active deletion request
and no forced-deletion marker scores at most 50, the score of an unhealthy member, under
each of the three policies.  Under Random it scores 20.  Under Newest it scores exactly 50
when its creation time is unset or its age is zero or negative, and less than 50
otherwise.  Whether the Oldest score stays below 50 is left open here. -/
theorem healthy_score_ceiling (now : Time) (m : Machine)
    (hdel : IsZero m.DeletionTimestamp = true)
    (hmark : (m.ObjectMeta.Annotations.lookup DeleteMachineAnnotation).isSome = false)
    (hh : isMachineHealthy m = true) :
    oldestDeletePriority Real.exp now m ≤ 50 ∧
    newestDeletePriority Real.exp now m ≤ 50 ∧
    (randomDeletePolicy m = (20 : ℝ) ∧ (randomDeletePolicy m : ℝ) < 50) ∧
    (m.ObjectMeta.CreationTimestamp.IsZero = true ∨
        now.ns - m.ObjectMeta.CreationTimestamp.ns ≤ 0 →
      newestDeletePriority Real.exp now m = 50) ∧
    (m.ObjectMeta.CreationTimestamp.IsZero = false →
      0 < now.ns - m.ObjectMeta.CreationTimestamp.ns →
      newestDeletePriority Real.exp now m < 50) := by
  obtain ⟨hn, hr⟩ := priority_of_healthy Real.exp now m hdel hmark hh
  obtain ⟨hlo, hhi⟩ := oldestDeletePriority_healthy_bounds now m hdel hmark hh
  obtain ⟨hzero, hpos⟩ := oldestDeletePriority_healthy_zero_or_pos now m hdel hmark hh
  refine ⟨le_of_lt hhi, by rw [hn]; linarith, ⟨hr, by rw [hr]; norm_num⟩, ?_, ?_⟩
  · intro h
    rw [hn, hzero h]
    norm_num
  · intro hz hage
    rw [hn]
    linarith [hpos hz hage]

/-- C16, amended, at a concrete input: member A, healthy and 20 days old. -/
theorem healthy_score_ceiling_witness :
    IsZero exampleA.DeletionTimestamp = true ∧
    (exampleA.ObjectMeta.Annotations.lookup DeleteMachineAnnotation).isSome = false ∧
    isMachineHealthy exampleA = true ∧
    exampleA.ObjectMeta.CreationTimestamp.IsZero = false ∧
    0 < exampleNow.ns - exampleA.ObjectMeta.CreationTimestamp.ns ∧
    oldestDeletePriority Real.exp exampleNow exampleA ≤ 50 ∧
    newestDeletePriority Real.exp exampleNow exampleA < 50 :=
  ⟨by decide, by decide, by decide, by decide, by decide,
    (healthy_score_ceiling exampleNow exampleA (by decide) (by decide) (by decide)).1,
    (healthy_score_ceiling exampleNow exampleA (by decide) (by decide)
      (by decide)).2.2.2.2 (by decide) (by decide)⟩

/-- Between healthy members without deletion request and without marker, the one that is
not older does not score higher under Oldest, provided the other has a creation time. -/
theorem oldestDeletePriority_le_of_age_le (now : Time) (a b : Machine)
    (hdela : IsZero a.DeletionTimestamp = true)
    (hmarka : (a.ObjectMeta.Annotations.lookup DeleteMachineAnnotation).isSome = false)
    (hha : isMachineHealthy a = true)
    (hdelb : IsZero b.DeletionTimestamp = true)
    (hmarkb : (b.ObjectMeta.Annotations.lookup DeleteMachineAnnotation).isSome = false)
    (hhb : isMachineHealthy b = true)
    (hsetb : b.ObjectMeta.CreationTimestamp.IsZero = false)
    (hage : now.ns - a.ObjectMeta.CreationTimestamp.ns
      ≤ now.ns - b.ObjectMeta.CreationTimestamp.ns) :
    oldestDeletePriority Real.exp now a ≤ oldestDeletePriority Real.exp now b := by
  have hsub := Sub_mono now _ _ hage
  rw [oldestDeletePriority_of_healthy Real.exp now a hdela hmarka hha]
  split
  · exact (oldestDeletePriority_healthy_bounds now b hdelb hmarkb hhb).1
  · split
    · exact (oldestDeletePriority_healthy_bounds now b hdelb hmarkb hhb).1
    · next hneg =>
      have hneg₂ : ¬ now.Sub b.ObjectMeta.CreationTimestamp < 0 := by omega
      rw [oldestDeletePriority_of_healthy Real.exp now b hdelb hmarkb hhb,
        if_neg (by simp [hsetb]), if_neg hneg₂]
      exact oldest_term_mono hsub

/-- With `n = 1` on at least two members, the selector returns one member; no member has
a higher priority than it, and none of the same priority has a smaller name. -/
theorem getMachinesToDeletePrioritized_one
    (sortSort : sortableMachines ℝ → sortableMachines ℝ) (hsort : SortContract sortSort)
    (members : List Machine) (priority : Machine → ℝ) (hlen : 2 ≤ members.length) :
    ∃ s ∈ members,
      (getMachinesToDeletePrioritized sortSort members 1 priority).result = [s] ∧
      (∀ m ∈ members, priority m ≤ priority s) ∧
      (∀ m ∈ members, priority m = priority s → s.Name ≤ m.Name) := by
  rw [getMachinesToDeletePrioritized_sort sortSort members priority 1 (by norm_num)
    (by exact_mod_cast (by omega : 1 < members.length))]
  have hperm := hsort.perm ⟨members, priority⟩
  have hpw := hsort.pairwise ⟨members, priority⟩
  simp only at hperm hpw ⊢
  generalize (sortSort ⟨members, priority⟩).machines = sorted at hperm hpw
  cases sorted with
  | nil =>
    have := hperm.length_eq
    simp at this
    omega
  | cons s rest =>
    refine ⟨s, hperm.subset (List.mem_cons_self s rest), rfl, ?_, ?_⟩
    · intro m hm
      rcases List.mem_cons.mp (hperm.symm.subset hm) with rfl | hmr
      · exact le_refl _
      · have h := (List.pairwise_cons.mp hpw).1 m hmr
        exact not_lt.mp (fun hlt => h (Or.inl hlt))
    · intro m hm heq
      rcases List.mem_cons.mp (hperm.symm.subset hm) with rfl | hmr
      · exact le_refl _
      · have h := (List.pairwise_cons.mp hpw).1 m hmr
        exact not_lt.mp (fun hlt => h (Or.inr ⟨heq, hlt⟩))

/-- The Newest scores of the members of the second end-to-end example: Z, 1 day old, scores
more than X, 5 days old, and more than Y, 3 days old. -/
theorem example_newest_scores :
    newestDeletePriority Real.exp exampleNow exampleX
      < newestDeletePriority Real.exp exampleNow exampleZ ∧
    newestDeletePriority Real.exp exampleNow exampleY
      < newestDeletePriority Real.exp exampleNow exampleZ := by
  have hX : oldestDeletePriority Real.exp exampleNow exampleZ
      < oldestDeletePriority Real.exp exampleNow exampleX := by
    rw [oldestDeletePriority_of_healthy Real.exp exampleNow exampleZ (by decide) (by decide)
        (by decide),
      oldestDeletePriority_of_healthy Real.exp exampleNow exampleX (by decide) (by decide)
        (by decide),
      if_neg (by decide), if_neg (by decide), if_neg (by decide), if_neg (by decide)]
    exact oldest_term_lt (by decide)
  have hY : oldestDeletePriority Real.exp exampleNow exampleZ
      < oldestDeletePriority Real.exp exampleNow exampleY := by
    rw [oldestDeletePriority_of_healthy Real.exp exampleNow exampleZ (by decide) (by decide)
        (by decide),
      oldestDeletePriority_of_healthy Real.exp exampleNow exampleY (by decide) (by decide)
        (by decide),
      if_neg (by decide), if_neg (by decide), if_neg (by decide), if_neg (by decide)]
    exact oldest_term_lt (by decide)
  rw [(priority_of_healthy Real.exp exampleNow exampleX (by decide) (by decide)
      (by decide)).1,
    (priority_of_healthy Real.exp exampleNow exampleY (by decide) (by decide)
      (by decide)).1,
    (priority_of_healthy Real.exp exampleNow exampleZ (by decide) (by decide)
      (by decide)).1]
  constructor <;> linarith

/-- C19, as stated, fails: the members "b" and "a", healthy, created 2 and 1 nanoseconds
after the zero instant, have ages beyond the range of `time.Duration`, which `time.Sub`
cuts off.  Their Newest scores are equal, and with `n = 1` the selector returns "a", the
older of the two. -/
theorem newest_returns_older_of_ancient_members :
    (ancientMember "a" 1).ObjectMeta.CreationTimestamp.ns
      < (ancientMember "b" 2).ObjectMeta.CreationTimestamp.ns ∧
    (ancientMember "b" 2).ObjectMeta.CreationTimestamp.ns ≤ exampleNow.ns ∧
    newestDeletePriority Real.exp exampleNow (ancientMember "b" 2)
      = newestDeletePriority Real.exp exampleNow (ancientMember "a" 1) ∧
    (getMachinesToDeletePrioritized insertionSort
        [ancientMember "b" 2, ancientMember "a" 1] 1
        (newestDeletePriority Real.exp exampleNow)).result = [ancientMember "a" 1] := by
  have ea : exampleNow.Sub (ancientMember "a" 1).ObjectMeta.CreationTimestamp
      = maxDuration := by decide
  have eb : exampleNow.Sub (ancientMember "b" 2).ObjectMeta.CreationTimestamp
      = maxDuration := by decide
  have hscore : newestDeletePriority Real.exp exampleNow (ancientMember "b" 2)
      = newestDeletePriority Real.exp exampleNow (ancientMember "a" 1) := by
    rw [(priority_of_healthy Real.exp exampleNow (ancientMember "b" 2) (by decide)
        (by decide) (by decide)).1,
      (priority_of_healthy Real.exp exampleNow (ancientMember "a" 1) (by decide)
        (by decide) (by decide)).1,
      oldestDeletePriority_of_healthy Real.exp exampleNow (ancientMember "b" 2) (by decide)
        (by decide) (by decide),
      oldestDeletePriority_of_healthy Real.exp exampleNow (ancientMember "a" 1) (by decide)
        (by decide) (by decide), ea, eb]
    rfl
  refine ⟨by decide, by decide, hscore, ?_⟩
  have hranked : [ancientMember "a" 1, ancientMember "b" 2].Pairwise
      (ranksBefore (newestDeletePriority Real.exp exampleNow)) := by
    rw [List.pairwise_cons]
    refine ⟨fun m hm => ?_, List.pairwise_singleton _ _⟩
    rw [List.mem_singleton.mp hm]
    exact Or.inr ⟨hscore.symm, by decide⟩
  exact congrArg Selection.result
    (getMachinesToDeletePrioritized_eq_of_ranked insertionSort insertionSort_contract
      [ancientMember "b" 2, ancientMember "a" 1] [ancientMember "a" 1, ancientMember "b" 2]
      (newestDeletePriority Real.exp exampleNow) 1 (by decide) (by decide) (by decide)
      (by decide) hranked)

/-- C19, amended: for every list of at least two healthy members with no active deletion
request and no forced-deletion marker, whose creation times are set and not after the
current time, the selector with `newestDeletePriority` and `n = 1` returns one member; no
member scores higher than it, and among the members with that score it has the smallest
name.  A member that is not older than another does not score lower, so a member with the
smallest age has the highest score, and it is the member returned whenever no other member
has the same score.  Scores of members of different ages can be equal, and then the name
decides. -/
theorem newest_selects_youngest
    (sortSort : sortableMachines ℝ → sortableMachines ℝ) (hsort : SortContract sortSort)
    (now : Time) (members : List Machine) (hlen : 2 ≤ members.length)
    (hall : ∀ m ∈ members, IsZero m.DeletionTimestamp = true ∧
      (m.ObjectMeta.Annotations.lookup DeleteMachineAnnotation).isSome = false ∧
      isMachineHealthy m = true ∧ m.ObjectMeta.CreationTimestamp.IsZero = false ∧
      m.ObjectMeta.CreationTimestamp.ns ≤ now.ns) :
    (∃ s ∈ members,
      (getMachinesToDeletePrioritized sortSort members 1
        (newestDeletePriority Real.exp now)).result = [s] ∧
      (∀ m ∈ members, newestDeletePriority Real.exp now m
        ≤ newestDeletePriority Real.exp now s) ∧
      (∀ m ∈ members, newestDeletePriority Real.exp now m
        = newestDeletePriority Real.exp now s → s.Name ≤ m.Name)) ∧
    (∀ a ∈ members, ∀ b ∈ members,
      now.ns - a.ObjectMeta.CreationTimestamp.ns
        ≤ now.ns - b.ObjectMeta.CreationTimestamp.ns →
      newestDeletePriority Real.exp now b ≤ newestDeletePriority Real.exp now a) ∧
    (∀ y ∈ members,
      (∀ m ∈ members, now.ns - y.ObjectMeta.CreationTimestamp.ns
        ≤ now.ns - m.ObjectMeta.CreationTimestamp.ns) →
      (∀ m ∈ members, newestDeletePriority Real.exp now m
        ≤ newestDeletePriority Real.exp now y) ∧
      ((∀ m ∈ members, m ≠ y → newestDeletePriority Real.exp now m
          ≠ newestDeletePriority Real.exp now y) →
        (getMachinesToDeletePrioritized sortSort members 1
          (newestDeletePriority Real.exp now)).result = [y])) := by
  have hnew : ∀ m ∈ members, newestDeletePriority Real.exp now m
      = 50 - oldestDeletePriority Real.exp now m := fun m hm =>
    (priority_of_healthy Real.exp now m (hall m hm).1 (hall m hm).2.1 (hall m hm).2.2.1).1
  have hone := getMachinesToDeletePrioritized_one sortSort hsort members
    (newestDeletePriority Real.exp now) hlen
  have hmono : ∀ a ∈ members, ∀ b ∈ members,
      now.ns - a.ObjectMeta.CreationTimestamp.ns
        ≤ now.ns - b.ObjectMeta.CreationTimestamp.ns →
      newestDeletePriority Real.exp now b ≤ newestDeletePriority Real.exp now a := by
    intro a ha b hb hage
    obtain ⟨a1, a2, a3, -, -⟩ := hall a ha
    obtain ⟨b1, b2, b3, b4, -⟩ := hall b hb
    have := oldestDeletePriority_le_of_age_le now a b a1 a2 a3 b1 b2 b3 b4 hage
    rw [hnew a ha, hnew b hb]
    linarith
  refine ⟨hone, hmono, ?_⟩
  intro y hy hmin
  have htop : ∀ m ∈ members, newestDeletePriority Real.exp now m
      ≤ newestDeletePriority Real.exp now y := fun m hm => hmono y hy m hm (hmin m hm)
  refine ⟨htop, ?_⟩
  intro hunique
  obtain ⟨s, hs, hres, hmax, -⟩ := hone
  rw [hres]
  by_cases hsy : s = y
  · rw [hsy]
  · exact absurd (le_antisymm (htop s hs) (hmax y hy)) (hunique s hs hsy)

/-- C19, amended, at the input of the end-to-end example: from the healthy members X, Y
and Z, 5, 3 and 1 days old, Newest with `n = 1` selects Z. -/
theorem newest_selects_youngest_witness :
    SortContract (@insertionSort ℝ _) ∧
    2 ≤ [exampleX, exampleY, exampleZ].length ∧
    (getMachinesToDeletePrioritized insertionSort [exampleX, exampleY, exampleZ] 1
      (newestDeletePriority Real.exp exampleNow)).result = [exampleZ] :=
  ⟨insertionSort_contract, by decide,
    ((newest_selects_youngest insertionSort insertionSort_contract exampleNow
      [exampleX, exampleY, exampleZ] (by decide) (by decide)).2.2 exampleZ (by decide)
      (by decide)).2 (by
        intro m hm hne
        simp only [List.mem_cons, List.mem_singleton, List.not_mem_nil, or_false] at hm
        rcases hm with rfl | rfl | rfl
        · exact ne_of_lt example_newest_scores.1
        · exact ne_of_lt example_newest_scores.2
        · exact absurd rfl hne)⟩

end RealPriority

/-! ## The policy resolver -/

section ResolverTheorems

variable {α : Type} [LinearOrderedField α]

/-- C7: `getDeletePriorityFunc` fails exactly when the configured policy is none of "",
"Random", "Newest" and "Oldest", compared as they are written.  It resolves "" and "Random"
to `randomDeletePolicy`, "Newest" to `newestDeletePriority` and "Oldest" to
`oldestDeletePriority`.  When it fails it returns no function, and the message of the error
holds the configured value and the names of the three policies one can choose. -/
theorem getDeletePriorityFunc_resolution (exp : α → α) (now : Time) (ms : MachineSet) :
    ((∃ msg, getDeletePriorityFunc exp now ms = Except.error msg) ↔
      (ms.Spec.DeletePolicy ≠ "" ∧ ms.Spec.DeletePolicy ≠ "Random" ∧
        ms.Spec.DeletePolicy ≠ "Newest" ∧ ms.Spec.DeletePolicy ≠ "Oldest")) ∧
    (ms.Spec.DeletePolicy = "" ∨ ms.Spec.DeletePolicy = "Random" →
      getDeletePriorityFunc exp now ms = Except.ok randomDeletePolicy) ∧
    (ms.Spec.DeletePolicy = "Newest" →
      getDeletePriorityFunc exp now ms = Except.ok (newestDeletePriority exp now)) ∧
    (ms.Spec.DeletePolicy = "Oldest" →
      getDeletePriorityFunc exp now ms = Except.ok (oldestDeletePriority exp now)) ∧
    (ms.Spec.DeletePolicy ≠ "" ∧ ms.Spec.DeletePolicy ≠ "Random" ∧
        ms.Spec.DeletePolicy ≠ "Newest" ∧ ms.Spec.DeletePolicy ≠ "Oldest" →
      getDeletePriorityFunc exp now ms
        = Except.error ("Unsupported delete policy " ++ ms.Spec.DeletePolicy
            ++ ". Must be one of \x27Random\x27, \x27Newest\x27, or \x27Oldest\x27") ∧
      ∀ msg, getDeletePriorityFunc exp now ms = Except.error msg →
        (∃ pre post, msg = pre ++ ms.Spec.DeletePolicy ++ post) ∧
        (∃ pre post, msg = pre ++ "\x27Random\x27" ++ post) ∧
        (∃ pre post, msg = pre ++ "\x27Newest\x27" ++ post) ∧
        (∃ pre post, msg = pre ++ "\x27Oldest\x27" ++ post)) := by
  have hok1 : ms.Spec.DeletePolicy = "" ∨ ms.Spec.DeletePolicy = "Random" →
      getDeletePriorityFunc exp now ms = Except.ok randomDeletePolicy := by
    rintro (h | h) <;>
      simp [getDeletePriorityFunc, h, RandomMachineSetDeletePolicy,
        NewestMachineSetDeletePolicy, OldestMachineSetDeletePolicy]
  have hok2 : ms.Spec.DeletePolicy = "Newest" →
      getDeletePriorityFunc exp now ms = Except.ok (newestDeletePriority exp now) := by
    intro h
    simp [getDeletePriorityFunc, h, RandomMachineSetDeletePolicy,
      NewestMachineSetDeletePolicy]
  have hok3 : ms.Spec.DeletePolicy = "Oldest" →
      getDeletePriorityFunc exp now ms = Except.ok (oldestDeletePriority exp now) := by
    intro h
    simp [getDeletePriorityFunc, h, RandomMachineSetDeletePolicy,
      NewestMachineSetDeletePolicy, OldestMachineSetDeletePolicy]
  have herr : ms.Spec.DeletePolicy ≠ "" ∧ ms.Spec.DeletePolicy ≠ "Random" ∧
        ms.Spec.DeletePolicy ≠ "Newest" ∧ ms.Spec.DeletePolicy ≠ "Oldest" →
      getDeletePriorityFunc exp now ms
        = Except.error ("Unsupported delete policy " ++ ms.Spec.DeletePolicy
            ++ ". Must be one of \x27Random\x27, \x27Newest\x27, or \x27Oldest\x27") := by
    rintro ⟨h0, h1, h2, h3⟩
    simp [getDeletePriorityFunc, h0, h1, h2, h3, RandomMachineSetDeletePolicy,
      NewestMachineSetDeletePolicy, OldestMachineSetDeletePolicy]
  refine ⟨⟨?_, fun h => ⟨_, herr h⟩⟩, hok1, hok2, hok3, fun h => ⟨herr h, ?_⟩⟩
  · rintro ⟨msg, hmsg⟩
    refine ⟨?_, ?_, ?_, ?_⟩ <;> intro h
    · rw [hok1 (Or.inl h)] at hmsg; exact Except.noConfusion hmsg
    · rw [hok1 (Or.inr h)] at hmsg; exact Except.noConfusion hmsg
    · rw [hok2 h] at hmsg; exact Except.noConfusion hmsg
    · rw [hok3 h] at hmsg; exact Except.noConfusion hmsg
  · intro msg hmsg
    rw [herr h] at hmsg
    have hm := Except.error.inj hmsg
    subst hm
    refine ⟨⟨"Unsupported delete policy ", _, rfl⟩, ?_, ?_, ?_⟩
    · refine ⟨"Unsupported delete policy " ++ ms.Spec.DeletePolicy ++ ". Must be one of ",
        ", \x27Newest\x27, or \x27Oldest\x27", ?_⟩
      simp only [String.append_assoc]
      rfl
    · refine ⟨"Unsupported delete policy " ++ ms.Spec.DeletePolicy
        ++ ". Must be one of \x27Random\x27, ", ", or \x27Oldest\x27", ?_⟩
      simp only [String.append_assoc]
      rfl
    · refine ⟨"Unsupported delete policy " ++ ms.Spec.DeletePolicy
        ++ ". Must be one of \x27Random\x27, \x27Newest\x27, or ", "", ?_⟩
      simp only [String.append_assoc]
      rfl

/-- C7, at concrete inputs: "Unknown" is refused with a message that holds "Unknown", and
so is "random", which differs from "Random" in case only. -/
theorem getDeletePriorityFunc_resolution_witness :
    (("Unknown" : String) ≠ "" ∧ ("Unknown" : String) ≠ "Random" ∧
      ("Unknown" : String) ≠ "Newest" ∧ ("Unknown" : String) ≠ "Oldest") ∧
    getDeletePriorityFunc Real.exp exampleNow ⟨⟨"Unknown"⟩⟩
      = Except.error ("Unsupported delete policy " ++ "Unknown"
          ++ ". Must be one of \x27Random\x27, \x27Newest\x27, or \x27Oldest\x27") ∧
    (∃ msg, getDeletePriorityFunc Real.exp exampleNow ⟨⟨"random"⟩⟩ = Except.error msg) :=
  ⟨by decide,
    ((getDeletePriorityFunc_resolution Real.exp exampleNow ⟨⟨"Unknown"⟩⟩).2.2.2.2
      (by decide)).1,
    (getDeletePriorityFunc_resolution Real.exp exampleNow ⟨⟨"random"⟩⟩).1.mpr (by decide)⟩

end ResolverTheorems

/-! ## The health classifier -/

/-- C8: a member is healthy exactly when it has a node binding, carries neither a failure
reason nor a failure message, and neither the node-healthy condition nor the
health-check-succeeded condition is there with status False.  A condition that is absent,
or whose status is Unknown or True, does not make the member unhealthy. -/
theorem isMachineHealthy_iff (m : Machine) :
    isMachineHealthy m = true ↔
      (m.Status.NodeRef ≠ none ∧
        (∀ d, m.Status.Deprecated = some d → ∀ v, d.V1Beta1 = some v →
          v.FailureReason = none ∧ v.FailureMessage = none) ∧
        (∀ c, Get m MachineNodeHealthyV1Beta1Condition = some c →
          c.Status ≠ ConditionStatus.ConditionFalse) ∧
        (∀ c, Get m MachineHealthCheckSucceededV1Beta1Condition = some c →
          c.Status ≠ ConditionStatus.ConditionFalse)) := by
  unfold isMachineHealthy
  cases hn : m.Status.NodeRef with
  | none => simp
  | some node =>
    cases hd : m.Status.Deprecated with
    | none =>
      cases h1 : Get m MachineNodeHealthyV1Beta1Condition <;>
        cases h2 : Get m MachineHealthCheckSucceededV1Beta1Condition <;> simp
    | some d =>
      cases hv : d.V1Beta1 with
      | none =>
        cases h1 : Get m MachineNodeHealthyV1Beta1Condition <;>
          cases h2 : Get m MachineHealthCheckSucceededV1Beta1Condition <;> simp [hv]
      | some v =>
        cases hr : v.FailureReason <;> cases hm : v.FailureMessage <;>
          cases h1 : Get m MachineNodeHealthyV1Beta1Condition <;>
          cases h2 : Get m MachineHealthCheckSucceededV1Beta1Condition <;>
          simp [hv, hr, hm]

end machineset
